import Mathlib

/-!
hysios/storage: backend registry and BucketURI resolution.

A shallow embedding of `utils.go` (registry, `BucketURI`), and of the adapter
constructors of `minio.go`, `s3.go` and `qiniu.go`.

Go strings are byte sequences (they need not hold valid UTF-8), so a Go string
is modelled as a list of bytes.  The process-wide variables `UnknownURI` and
`stores` are the two fields of an explicit `State`.
-/

namespace storage

/-! ## Go strings -/

/-- A Go string: its bytes, each a natural number below 256. -/
abbrev GoString := List Nat

/-- UTF-8 encoding of one code point (`utf8.AppendRune` on a valid rune). -/
def utf8Bytes (c : Nat) : List Nat :=
  if c < 0x80 then [c]
  else if c < 0x800 then [0xC0 + c / 64, 0x80 + c % 64]
  else if c < 0x10000 then [0xE0 + c / 4096, 0x80 + c / 64 % 64, 0x80 + c % 64]
  else [0xF0 + c / 262144, 0x80 + c / 4096 % 64, 0x80 + c / 64 % 64, 0x80 + c % 64]

/-- A Go string literal: the UTF-8 bytes of its text. -/
def lit (s : String) : GoString :=
  (s.data.map fun c => utf8Bytes c.toNat).flatten

/-! ## Adapters (the fields the registry reads) -/

/-- `MinioStorage` of minio.go; `client` records whether the SDK client is set. -/
structure MinioStorage where
  Endpoint : GoString := []
  AccessKey : GoString := []
  AppSecret : GoString := []
  Region : GoString := []
  Bucket : GoString := []
  HttpPrefix : GoString := []
  UseSSL : Bool := false
  client : Bool := false
deriving DecidableEq

/-- `S3ObjectStorage` of s3.go.  The SDK handle `svc` is represented by the one
answer the registry code asks of it: `website` is what `BucketWebsite()` returns,
`none` standing for an error. -/
structure S3ObjectStorage where
  Endpoint : GoString := []
  AccessKey : GoString := []
  AppSecret : GoString := []
  Region : GoString := []
  Bucket : GoString := []
  HttpPrefix : GoString := []
  website : Option GoString := none
deriving DecidableEq

/-- `QiniuConfig` of qiniu.go. -/
structure QiniuConfig where
  AppKey : GoString := []
  Secret : GoString := []
  Bucket : GoString := []
  ParentDir : GoString := []
  Region : GoString := []
  HttpPrefix : GoString := []
deriving DecidableEq

/-- `QiniuStorage` of qiniu.go (the credentials `mac` are derived from `Config`). -/
structure QiniuStorage where
  Config : QiniuConfig
deriving DecidableEq

/-- The `Storage` interface, as the sum of its three implementations. -/
inductive Storage where
  | minio (s : MinioStorage)
  | s3 (s : S3ObjectStorage)
  | qiniu (s : QiniuStorage)
deriving DecidableEq

/-- `BucketName()` of each adapter. -/
def Storage.BucketName : Storage → GoString
  | .minio s => s.Bucket
  | .s3 s => s.Bucket
  | .qiniu s => s.Config.Bucket

/-! ## The registry: `stores`, `register`, `GetBucketHost` -/

/-- `storeHost` of utils.go. -/
structure storeHost where
  Bucket : GoString
  Host : GoString
  store : Storage
deriving DecidableEq

/-- The `sync.Map` named `stores`.  Only `register` writes to it, and it only
stores `[]storeHost` values, so the type assertions of the source always hold. -/
abbrev Stores := GoString → Option (List storeHost)

/-- The empty map: no scheme has been registered. -/
def Stores.empty : Stores := fun _ => none

/-- `sync.Map.Load`. -/
def Stores.Load (m : Stores) (key : GoString) : Option (List storeHost) := m key

/-- `sync.Map.Store`. -/
def Stores.Store (m : Stores) (key : GoString) (value : List storeHost) : Stores :=
  fun k => if k = key then some value else m k

/-- `sync.Map.LoadOrStore`: the existing value and `true` when the key is present,
else the given value is stored and returned with `false`. -/
def Stores.LoadOrStore (m : Stores) (key : GoString) (value : List storeHost) :
    Stores × List storeHost × Bool :=
  match m key with
  | some actual => (m, actual, true)
  | none => (m.Store key value, value, false)

/-- `register` of utils.go. -/
def register (stores : Stores) (scheme : GoString) (store : Storage) (host : GoString) :
    Stores :=
  let sts : List storeHost := [{ Bucket := store.BucketName, Host := host, store := store }]
  match stores.LoadOrStore scheme sts with
  | (stores1, olds, true) => stores1.Store scheme (olds ++ sts)
  | (stores1, _, false) => stores1

/-- The `for _, st := range stss` loop of `GetBucketHost`. -/
def GetBucketHost.scan (bucket : GoString) : List storeHost → GoString × Bool
  | [] => ([], false)
  | st :: rest => if st.Bucket = bucket then (st.Host, true) else scan bucket rest

/-- `GetBucketHost` of utils.go. -/
def GetBucketHost (stores : Stores) (scheme bucket : GoString) : GoString × Bool :=
  match stores.Load scheme with
  | none => ([], false)
  | some stss => GetBucketHost.scan bucket stss

/-! ## Byte-string helpers (package `strings`) -/

/-- `strings.Cut(s, sep)` for a one-byte separator: the text before the first
`sep`, the text after it, and whether `sep` occurs. -/
def cutByte (sep : Nat) (s : GoString) : GoString × GoString × Bool :=
  (s.takeWhile (fun b => b != sep), (s.dropWhile (fun b => b != sep)).drop 1, s.elem sep)

/-- Split at the last occurrence of a byte (`strings.LastIndex` with a one-byte
separator): `s[:i]` and `s[i+1:]`, or `none` when the byte does not occur. -/
def lastCutByte (sep : Nat) (s : GoString) : Option (GoString × GoString) :=
  if s.elem sep then
    some (((s.reverse.dropWhile (fun b => b != sep)).drop 1).reverse,
          (s.reverse.takeWhile (fun b => b != sep)).reverse)
  else none

/-- Split at the first occurrence of a substring (`strings.Index`): `s[:i]` and
`s[i:]`, or `none` when `pat` does not occur. -/
def splitAtSub (pat : GoString) : GoString → Option (GoString × GoString)
  | [] => if pat.isPrefixOf [] then some ([], []) else none
  | b :: rest =>
    if pat.isPrefixOf (b :: rest) then some ([], b :: rest)
    else (splitAtSub pat rest).map fun p => (b :: p.1, p.2)

/-- `strings.ToLower` on ASCII text (URL schemes hold only ASCII letters,
digits, `+`, `-` and `.`). -/
def ToLower (s : GoString) : GoString :=
  s.map fun c => if 0x41 ≤ c ∧ c ≤ 0x5A then c + 32 else c

/-! ## UTF-8 decoding (package `unicode/utf8`) and `strings.TrimSpace` -/

/-- `utf8.RuneError`. -/
def RuneError : Nat := 0xFFFD

/-- The continuation-byte test `0x80 <= b <= 0xBF`. -/
def isCont (b : Nat) : Bool := 0x80 ≤ b && b ≤ 0xBF

/-- `utf8.DecodeRuneInString`: the first rune of `s` and its width in bytes;
`(RuneError, 1)` on an invalid encoding, `(RuneError, 0)` on the empty string. -/
def DecodeRuneInString : GoString → Nat × Nat
  | [] => (RuneError, 0)
  | s0 :: rest =>
    if s0 < 0x80 then (s0, 1)
    else if s0 < 0xC2 ∨ 0xF4 < s0 then (RuneError, 1)
    else
      match rest with
      | [] => (RuneError, 1)
      | s1 :: rest1 =>
        -- the accept range of the second byte depends on the first
        let lo := if s0 = 0xE0 then 0xA0 else if s0 = 0xF0 then 0x90 else 0x80
        let hi := if s0 = 0xED then 0x9F else if s0 = 0xF4 then 0x8F else 0xBF
        if s1 < lo ∨ hi < s1 then (RuneError, 1)
        else if s0 < 0xE0 then ((s0 - 0xC0) * 64 + (s1 - 0x80), 2)
        else
          match rest1 with
          | [] => (RuneError, 1)
          | s2 :: rest2 =>
            if !isCont s2 then (RuneError, 1)
            else if s0 < 0xF0 then
              ((s0 - 0xE0) * 4096 + (s1 - 0x80) * 64 + (s2 - 0x80), 3)
            else
              match rest2 with
              | [] => (RuneError, 1)
              | s3 :: _ =>
                if !isCont s3 then (RuneError, 1)
                else ((s0 - 0xF0) * 262144 + (s1 - 0x80) * 4096 + (s2 - 0x80) * 64
                        + (s3 - 0x80), 4)

/-- The loop `for i := 0; i < len(s); i += size` over the runes of a string:
`skip` counts the bytes of the current rune that are still to be passed over. -/
def decodeRunes.go : Nat → GoString → List (Nat × GoString)
  | _, [] => []
  | skip + 1, _ :: rest => go skip rest
  | 0, s0 :: rest =>
    let d := DecodeRuneInString (s0 :: rest)
    (d.1, (s0 :: rest).take d.2) :: go (d.2 - 1) rest

/-- The runes of a string in order, as `for _, r := range s` yields them, each
with the bytes it was decoded from. -/
def decodeRunes (s : GoString) : List (Nat × GoString) := decodeRunes.go 0 s

/-- `unicode.IsSpace`. -/
def IsSpace (r : Nat) : Bool :=
  r = 0x09 || r = 0x0A || r = 0x0B || r = 0x0C || r = 0x0D || r = 0x20 ||
  r = 0x85 || r = 0xA0 || r = 0x1680 || (0x2000 ≤ r && r ≤ 0x200A) ||
  r = 0x2028 || r = 0x2029 || r = 0x202F || r = 0x205F || r = 0x3000

/-- `strings.TrimSpace`: the string without its leading and trailing runes that
are white space, the runes being read from the front.  (Go reads the trailing
runes from the back; the two readings agree on whether anything is left, which
is all `Empty` asks.) -/
def TrimSpace (s : GoString) : GoString :=
  ((((decodeRunes s).dropWhile fun p => IsSpace p.1).reverse.dropWhile
      fun p => IsSpace p.1).reverse.map fun p => p.2).flatten

/-- `Empty` of utils.go. -/
def Empty (s : GoString) : Bool := (TrimSpace s).length == 0

/-! ## `url.Parse` (package `net/url`)

`BucketURI.String` and the adapters' `hostname` call the standard library's
`url.Parse`.  It is transcribed here from `net/url` (the text of Go 1.22).  An
error is `none`. -/

/-- The `encoding` modes of `net/url`. -/
inductive encoding where
  | encodePath | encodePathSegment | encodeHost | encodeZone
  | encodeUserPassword | encodeQueryComponent | encodeFragment
deriving DecidableEq

/-- `url.URL`. -/
structure URL where
  Scheme : GoString := []
  Opaque : GoString := []
  User : Option (GoString × Option GoString) := none
  Host : GoString := []
  Path : GoString := []
  RawPath : GoString := []
  OmitHost : Bool := false
  ForceQuery : Bool := false
  RawQuery : GoString := []
  Fragment : GoString := []
  RawFragment : GoString := []
deriving DecidableEq

/-- ASCII letters and digits. -/
def isAlnum (c : Nat) : Bool :=
  (0x61 ≤ c && c ≤ 0x7A) || (0x41 ≤ c && c ≤ 0x5A) || (0x30 ≤ c && c ≤ 0x39)

/-- `ishex` of `net/url`. -/
def ishex (c : Nat) : Bool :=
  (0x30 ≤ c && c ≤ 0x39) || (0x61 ≤ c && c ≤ 0x66) || (0x41 ≤ c && c ≤ 0x46)

/-- `unhex` of `net/url`. -/
def unhex (c : Nat) : Nat :=
  if 0x30 ≤ c ∧ c ≤ 0x39 then c - 0x30
  else if 0x61 ≤ c ∧ c ≤ 0x66 then c - 0x61 + 10
  else if 0x41 ≤ c ∧ c ≤ 0x46 then c - 0x41 + 10
  else 0

/-- `shouldEscape` of `net/url`. -/
def shouldEscape (c : Nat) (mode : encoding) : Bool :=
  if isAlnum c then false
  else if (mode = .encodeHost ∨ mode = .encodeZone) ∧
      c ∈ [0x21, 0x24, 0x26, 0x27, 0x28, 0x29, 0x2A, 0x2B, 0x2C, 0x3B, 0x3D, 0x3A,
           0x5B, 0x5D, 0x3C, 0x3E, 0x22] then false   -- ! $ & ' ( ) * + , ; = : [ ] < > "
  else if c ∈ [0x2D, 0x5F, 0x2E, 0x7E] then false      -- - _ . ~
  else if c ∈ [0x24, 0x26, 0x2B, 0x2C, 0x2F, 0x3A, 0x3B, 0x3D, 0x3F, 0x40] ∧
      mode ∈ [.encodePath, .encodePathSegment, .encodeUserPassword,
              .encodeQueryComponent, .encodeFragment] then   -- $ & + , / : ; = ? @
    match mode with
    | .encodePath => c = 0x3F
    | .encodePathSegment => c = 0x2F || c = 0x3B || c = 0x2C || c = 0x3F
    | .encodeUserPassword => c = 0x40 || c = 0x2F || c = 0x3F || c = 0x3A
    | .encodeQueryComponent => true
    | _ => false
  else if mode = .encodeFragment ∧ c ∈ [0x21, 0x28, 0x29, 0x2A] then false   -- ! ( ) *
  else true

/-- The first loop of `unescape`: whether every `%` starts a well-formed escape
that the mode allows, and (for hosts) whether every other byte may stand
unescaped. -/
def unescape.check (mode : encoding) : GoString → Bool
  | [] => true
  | c :: rest =>
    if c = 0x25 then
      match rest with
      | h1 :: h2 :: rest2 =>
        if !ishex h1 || !ishex h2 then false
        else if mode = .encodeHost ∧ unhex h1 < 8 ∧ [c, h1, h2] ≠ [0x25, 0x32, 0x35] then false
        else if mode = .encodeZone ∧ [c, h1, h2] ≠ [0x25, 0x32, 0x35] ∧
            unhex h1 * 16 + unhex h2 ≠ 0x20 ∧
            shouldEscape (unhex h1 * 16 + unhex h2) .encodeHost then false
        else check mode rest2
      | _ => false
    else if (mode = .encodeHost ∨ mode = .encodeZone) ∧ c < 0x80 ∧
        shouldEscape c .encodeHost then false
    else check mode rest

/-- The second loop of `unescape`: `%XX` becomes the byte `XX`, and `+` becomes a
space in a query component. -/
def unescape.decode (mode : encoding) : GoString → GoString
  | [] => []
  | c :: rest =>
    if c = 0x25 then
      match rest with
      | h1 :: h2 :: rest2 => (unhex h1 * 16 + unhex h2) :: decode mode rest2
      | _ => c :: rest   -- excluded by the first loop
    else if c = 0x2B ∧ mode = .encodeQueryComponent then 0x20 :: decode mode rest
    else c :: decode mode rest

/-- `unescape` of `net/url`. -/
def unescape (s : GoString) (mode : encoding) : Option GoString :=
  if unescape.check mode s then some (unescape.decode mode s) else none

/-- `stringContainsCTLByte` of `net/url`. -/
def stringContainsCTLByte (s : GoString) : Bool :=
  s.any fun b => b < 0x20 || b = 0x7F

/-- The loop of `getScheme`, at index `i` with `s = rawURL[i:]`. -/
def getScheme.loop (rawURL : GoString) : Nat → GoString → Option (GoString × GoString)
  | _, [] => some ([], rawURL)
  | i, c :: rest =>
    if (0x61 ≤ c ∧ c ≤ 0x7A) ∨ (0x41 ≤ c ∧ c ≤ 0x5A) then loop rawURL (i + 1) rest
    else if (0x30 ≤ c ∧ c ≤ 0x39) ∨ c = 0x2B ∨ c = 0x2D ∨ c = 0x2E then
      if i = 0 then some ([], rawURL) else loop rawURL (i + 1) rest
    else if c = 0x3A then
      if i = 0 then none else some (rawURL.take i, rawURL.drop (i + 1))
    else some ([], rawURL)

/-- `getScheme` of `net/url`: the scheme and the rest, `none` for the error
"missing protocol scheme". -/
def getScheme (rawURL : GoString) : Option (GoString × GoString) :=
  getScheme.loop rawURL 0 rawURL

/-- `validOptionalPort` of `net/url`. -/
def validOptionalPort : GoString → Bool
  | [] => true
  | c :: rest => c = 0x3A && rest.all fun b => 0x30 ≤ b && b ≤ 0x39

/-- `validUserinfo` of `net/url`. -/
def validUserinfo (s : GoString) : Bool :=
  s.all fun r => isAlnum r ||
    r ∈ [0x2D, 0x2E, 0x5F, 0x3A, 0x7E, 0x21, 0x24, 0x26, 0x27, 0x28, 0x29, 0x2A,
         0x2B, 0x2C, 0x3B, 0x3D, 0x25, 0x40]

/-- `parseHost` of `net/url`. -/
def parseHost (host : GoString) : Option GoString :=
  if [0x5B].isPrefixOf host then
    match lastCutByte 0x5D host with
    | none => none
    | some (inner, colonPort) =>
      if !validOptionalPort colonPort then none
      else
        match splitAtSub [0x25, 0x32, 0x35] inner with
        | some (h1, zone) =>
          match unescape h1 .encodeHost, unescape zone .encodeZone,
                unescape (0x5D :: colonPort) .encodeHost with
          | some host1, some host2, some host3 => some (host1 ++ host2 ++ host3)
          | _, _, _ => none
        | none => unescape host .encodeHost
  else
    match lastCutByte 0x3A host with
    | some (_, port) =>
      if !validOptionalPort (0x3A :: port) then none else unescape host .encodeHost
    | none => unescape host .encodeHost

/-- `parseAuthority` of `net/url`: the user information and the host. -/
def parseAuthority (authority : GoString) :
    Option (Option (GoString × Option GoString) × GoString) :=
  match lastCutByte 0x40 authority with
  | none => (parseHost authority).map fun host => (none, host)
  | some (userinfo, hostpart) =>
    match parseHost hostpart with
    | none => none
    | some host =>
      if !validUserinfo userinfo then none
      else if !userinfo.elem 0x3A then
        (unescape userinfo .encodeUserPassword).map fun u => (some (u, none), host)
      else
        match unescape (cutByte 0x3A userinfo).1 .encodeUserPassword,
              unescape (cutByte 0x3A userinfo).2.1 .encodeUserPassword with
        | some username, some password => some (some (username, some password), host)
        | _, _ => none

/-- The digit table `"0123456789ABCDEF"` of `net/url`. -/
def upperhex (n : Nat) : Nat := if n < 10 then 0x30 + n else 0x37 + n

/-- `escape` of `net/url`: every byte the mode wants escaped becomes `%XX`, and
a space becomes `+` in a query component. -/
def escape (s : GoString) (mode : encoding) : GoString :=
  (s.map fun c =>
    if c = 0x20 ∧ mode = .encodeQueryComponent then [0x2B]
    else if shouldEscape c mode then [0x25, upperhex (c / 16), upperhex (c % 16)]
    else [c]).flatten

/-- `URL.setPath` of `net/url`: `RawPath` is kept only when it is not the default
encoding of the path. -/
def URL.setPath (u : URL) (p : GoString) : Option URL :=
  (unescape p .encodePath).map fun path =>
    { u with Path := path, RawPath := if escape path .encodePath = p then [] else p }

/-- `URL.setFragment` of `net/url`. -/
def URL.setFragment (u : URL) (f : GoString) : Option URL :=
  (unescape f .encodeFragment).map fun frag =>
    { u with Fragment := frag,
             RawFragment := if escape frag .encodeFragment = f then [] else f }

/-- `parse` of `net/url` with `viaRequest = false`. -/
def url.parse (rawURL : GoString) : Option URL :=
  if stringContainsCTLByte rawURL then none
  else if rawURL = [0x2A] then some { Path := [0x2A] }
  else
    match getScheme rawURL with
    | none => none
    | some (scheme, rest0) =>
      let url : URL := { Scheme := ToLower scheme }
      let forceQuery : Bool := [0x3F].isSuffixOf rest0 && rest0.count 0x3F == 1
      let rest : GoString := if forceQuery then rest0.dropLast else (cutByte 0x3F rest0).1
      let url : URL := { url with
        ForceQuery := forceQuery
        RawQuery := if forceQuery then [] else (cutByte 0x3F rest0).2.1 }
      if [0x2F].isPrefixOf rest = false ∧ url.Scheme ≠ [] then
        some { url with Opaque := rest }
      else if [0x2F].isPrefixOf rest = false ∧ (cutByte 0x2F rest).1.elem 0x3A then none
      else if (url.Scheme ≠ [] ∨ [0x2F, 0x2F, 0x2F].isPrefixOf rest = false) ∧
          [0x2F, 0x2F].isPrefixOf rest then
        let authority := (rest.drop 2).takeWhile fun b => b != 0x2F
        let rest := (rest.drop 2).dropWhile fun b => b != 0x2F
        match parseAuthority authority with
        | none => none
        | some (user, host) => URL.setPath { url with User := user, Host := host } rest
      else
        URL.setPath { url with OmitHost := url.Scheme ≠ [] ∧ [0x2F].isPrefixOf rest } rest

/-- `url.Parse` of `net/url`. -/
def url.Parse (rawURL : GoString) : Option URL :=
  match url.parse (cutByte 0x23 rawURL).1 with
  | none => none
  | some u =>
    if (cutByte 0x23 rawURL).2.1 = [] then some u
    else URL.setFragment u (cutByte 0x23 rawURL).2.1

/-! ## `BucketURI` -/

/-- `BucketURI` of utils.go. -/
abbrev BucketURI := GoString

/-- The process-wide variables of utils.go. -/
structure State where
  UnknownURI : GoString
  stores : Stores

/-- The state at process start: `UnknownURI` holds its initialiser and `stores`
is empty. -/
def State.init : State :=
  { UnknownURI := lit "http://127.0.0.1:9000/keyue/unknown.png", stores := Stores.empty }

/-- `SetUnknownURI` of utils.go. -/
def SetUnknownURI (st : State) (uri : GoString) : State := { st with UnknownURI := uri }

/-- `BucketURI.UnknownURI` of utils.go. -/
def BucketURI.UnknownURI (st : State) (_uri : BucketURI) : GoString := st.UnknownURI

/-- `BucketURI.String` of utils.go. -/
def BucketURI.String (st : State) (uri : BucketURI) : GoString :=
  if Empty uri then BucketURI.UnknownURI st uri
  else
    match url.Parse uri with
    | none => uri
    | some u =>
      match GetBucketHost st.stores u.Scheme u.Host with
      | (_, false) => uri
      | (host, true) =>
        if u.Scheme = lit "minio" ∨ u.Scheme = lit "s3" ∨ u.Scheme = lit "qiniu" then
          lit "http://" ++ host ++ lit "/" ++ u.Host ++ u.Path
        else uri

/-! ## The calls that change the process-wide state -/

/-- A call that writes to the process-wide variables. -/
inductive Call where
  | SetUnknownURI (uri : GoString)
  | register (scheme : GoString) (store : Storage) (host : GoString)

/-- The state after one call. -/
def State.step (st : State) : Call → State
  | .SetUnknownURI uri => SetUnknownURI st uri
  | .register scheme store host => { st with stores := register st.stores scheme store host }

/-- The state after a sequence of calls, the first of the list first. -/
def State.run (st : State) (calls : List Call) : State := calls.foldl State.step st

/-- The argument of the most recent `SetUnknownURI` among the calls, or `dflt`
when there is none. -/
def lastUnknownURI (dflt : GoString) : List Call → GoString
  | [] => dflt
  | .SetUnknownURI uri :: rest => lastUnknownURI uri rest
  | .register _ _ _ :: rest => lastUnknownURI dflt rest

/-- A sequence of `register` calls, each given by its three arguments. -/
def registerAll (stores : Stores) (calls : List (GoString × Storage × GoString)) : Stores :=
  calls.foldl (fun m c => register m c.1 c.2.1 c.2.2) stores

/-! ## `encoding/json` on strings

`BucketURI.MarshalJSON` hands the resolved string to the standard library's
`json.Marshal`; `appendString` is transcribed from `encoding/json` (Go 1.22, HTML
escaping on, as `Marshal` sets it), and `unquote` is the decoding of a JSON
string literal that `json.Unmarshal` performs. -/

/-- The digit table `"0123456789abcdef"`. -/
def hex (n : Nat) : Nat := if n < 10 then 0x30 + n else 0x57 + n

/-- `htmlSafeSet` of `encoding/json`: the ASCII bytes written as they are. -/
def htmlSafeSet (b : Nat) : Bool :=
  0x20 ≤ b && b < 0x80 && b != 0x22 && b != 0x26 && b != 0x3C && b != 0x3E && b != 0x5C

/-- What `appendString` writes for one rune of the source string. -/
def appendString.rune (p : Nat × GoString) : GoString :=
  match p.2 with
  | [b] =>
    if b < 0x80 then
      if htmlSafeSet b then [b]
      else if b = 0x5C ∨ b = 0x22 then [0x5C, b]
      else if b = 0x08 then [0x5C, 0x62]
      else if b = 0x0C then [0x5C, 0x66]
      else if b = 0x0A then [0x5C, 0x6E]
      else if b = 0x0D then [0x5C, 0x72]
      else if b = 0x09 then [0x5C, 0x74]
      else [0x5C, 0x75, 0x30, 0x30, hex (b / 16), hex (b % 16)]
    else [0x5C, 0x75, 0x66, 0x66, 0x66, 0x64]   -- an invalid byte is written as U+FFFD
  | raw =>
    if p.1 = 0x2028 ∨ p.1 = 0x2029 then [0x5C, 0x75, 0x32, 0x30, 0x32, hex (p.1 % 16)]
    else raw

/-- `appendString` of `encoding/json`: the JSON string literal for `src`. -/
def appendString (src : GoString) : GoString :=
  0x22 :: ((decodeRunes src).map appendString.rune).flatten ++ [0x22]

/-- `json.Marshal` on a string value: the literal and a nil error. -/
def json.Marshal (v : GoString) : GoString × Option GoString := (appendString v, none)

/-- `getu4` of `encoding/json`: the code unit of a leading `\uXXXX`. -/
def getu4 : GoString → Option Nat
  | e :: u :: a :: b :: c :: d :: _ =>
    if e = 0x5C ∧ u = 0x75 ∧ ishex a ∧ ishex b ∧ ishex c ∧ ishex d then
      some (unhex a * 4096 + unhex b * 256 + unhex c * 16 + unhex d)
    else none
  | _ => none

/-- `utf16.DecodeRune`. -/
def utf16DecodeRune (r1 r2 : Nat) : Nat :=
  if 0xD800 ≤ r1 ∧ r1 < 0xDC00 ∧ 0xDC00 ≤ r2 ∧ r2 < 0xE000 then
    (r1 - 0xD800) * 1024 + (r2 - 0xDC00) + 0x10000
  else RuneError

/-- The loop of `unquoteBytes` of `encoding/json` over the text between the
quotes; `skip` counts the bytes of the current escape or rune still to pass. -/
def unquote.go : Nat → GoString → Option GoString
  | _, [] => some []
  | skip + 1, _ :: rest => go skip rest
  | 0, c :: rest =>
    if c = 0x5C then
      match rest with
      | [] => none
      | e :: _ =>
        if e = 0x22 ∨ e = 0x5C ∨ e = 0x2F ∨ e = 0x27 then (go 1 rest).map fun t => e :: t
        else if e = 0x62 then (go 1 rest).map fun t => 0x08 :: t
        else if e = 0x66 then (go 1 rest).map fun t => 0x0C :: t
        else if e = 0x6E then (go 1 rest).map fun t => 0x0A :: t
        else if e = 0x72 then (go 1 rest).map fun t => 0x0D :: t
        else if e = 0x74 then (go 1 rest).map fun t => 0x09 :: t
        else if e = 0x75 then
          match getu4 (c :: rest) with
          | none => none
          | some rr =>
            if 0xD800 ≤ rr ∧ rr < 0xE000 then
              match getu4 (rest.drop 5) with
              | some rr1 =>
                if utf16DecodeRune rr rr1 ≠ RuneError then
                  (go 11 rest).map fun t => utf8Bytes (utf16DecodeRune rr rr1) ++ t
                else (go 5 rest).map fun t => utf8Bytes RuneError ++ t
              | none => (go 5 rest).map fun t => utf8Bytes RuneError ++ t
            else (go 5 rest).map fun t => utf8Bytes rr ++ t
        else none
    else if c = 0x22 ∨ c < 0x20 then none
    else if c < 0x80 then (go 0 rest).map fun t => c :: t
    else
      (go ((DecodeRuneInString (c :: rest)).2 - 1) rest).map fun t =>
        utf8Bytes (DecodeRuneInString (c :: rest)).1 ++ t

/-- `unquote` of `encoding/json`: the Go string a JSON string literal stands
for, `none` when the text is no such literal. -/
def unquote (s : GoString) : Option GoString :=
  if s.length < 2 ∨ s.head? ≠ some 0x22 ∨ s.getLast? ≠ some 0x22 then none
  else unquote.go 0 (s.drop 1).dropLast

/-- `utf8.ValidString`: no rune of the string is an invalid byte. -/
def ValidString (s : GoString) : Bool :=
  (decodeRunes s).all fun p => p.2.length != 1 || p.1 < 0x80

/-- The conversion `string([]rune(s))`: the string with every byte that is not
part of a valid UTF-8 encoding replaced by the encoding of U+FFFD. -/
def coerceUTF8 (s : GoString) : GoString :=
  ((decodeRunes s).map fun p =>
    if p.2.length = 1 ∧ 0x80 ≤ p.1 then utf8Bytes RuneError else p.2).flatten

/-- `BucketURI.MarshalJSON` of utils.go. -/
def BucketURI.MarshalJSON (st : State) (uri : BucketURI) : GoString × Option GoString :=
  json.Marshal (BucketURI.String st uri)

/-! ## Adapter constructors and `BucketURI` methods -/

/-- `MinioOptionFunc` of minio.go; the returned error is always nil and the
constructors ignore it. -/
abbrev MinioOptionFunc := MinioStorage → MinioStorage

/-- `MinioWebPrefix` of minio.go. -/
def MinioWebPrefix (url : GoString) : MinioOptionFunc := fun minio => { minio with HttpPrefix := url }

/-- `MinioEndpoint` of minio.go. -/
def MinioEndpoint (url : GoString) : MinioOptionFunc := fun minio => { minio with Endpoint := url }

/-- `MinioUseSSL` of minio.go. -/
def MinioUseSSL (useSSL : Bool) : MinioOptionFunc := fun minio => { minio with UseSSL := useSSL }

/-- `S3OptionFunc` of s3_option.go. -/
abbrev S3OptionFunc := S3ObjectStorage → S3ObjectStorage

/-- `S3WebPrefix` of s3.go. -/
def S3WebPrefix (url : GoString) : S3OptionFunc := fun s3 => { s3 with HttpPrefix := url }

/-- `S3Endpoint` of s3_option.go. -/
def S3Endpoint (url : GoString) : S3OptionFunc := fun s3 => { s3 with Endpoint := url }

/-- `S3Region` of s3_option.go. -/
def S3Region (region : GoString) : S3OptionFunc := fun s3 => { s3 with Region := region }

/-- `hostname` of s3.go. -/
def hostname (s : GoString) : GoString :=
  match url.Parse s with
  | none => s
  | some u => u.Host

/-- `S3ObjectStorage.Hostname` of s3.go. -/
def S3ObjectStorage.Hostname (store : S3ObjectStorage) : GoString :=
  if Empty store.HttpPrefix then
    match store.website with
    | none => []
    | some uri => hostname uri
  else hostname store.HttpPrefix

/-- `MinioStorage.Hostname` of minio.go.  `urlString` stands for the standard
library's `URL.String`, which prints the parsed endpoint. -/
def MinioStorage.Hostname (urlString : URL → GoString) (store : MinioStorage) : GoString :=
  if Empty store.HttpPrefix then
    match url.Parse store.Endpoint with
    | none => []
    | some uri => urlString uri
  else hostname store.HttpPrefix

/-- `NewMinio` of minio.go.  `clientOk` tells whether the SDK's `minio.New`
succeeds; the result is the state afterwards and the store, `none` on error.
The registry entry records the store as it is when `register` runs, before the
client is set. -/
def NewMinio (urlString : URL → GoString) (clientOk : Bool) (st : State)
    (appkey secret bucket : GoString) (opts : List MinioOptionFunc) :
    State × Option MinioStorage :=
  let store : MinioStorage := { Bucket := bucket, AccessKey := appkey, AppSecret := secret }
  let store := opts.foldl (fun s set => set s) store
  let st := { st with
    stores := register st.stores (lit "minio") (.minio store) (store.Hostname urlString) }
  if clientOk then (st, some { store with client := true }) else (st, none)

/-- `NewMinioV2` of minio.go.  `clientOk` tells whether the SDK's
`minio.NewWithCredentials` succeeds. -/
def NewMinioV2 (clientOk : Bool) (st : State)
    (appkey secret bucket : GoString) (opts : List MinioOptionFunc) :
    State × Option MinioStorage :=
  let store : MinioStorage := { Bucket := bucket, AccessKey := appkey, AppSecret := secret }
  let store := opts.foldl (fun s set => set s) store
  if clientOk then (st, some { store with client := true }) else (st, none)

/-- `NewS3` of s3.go.  `website` is what the session's `GetBucketWebsite` will
answer for the bucket. -/
def NewS3 (website : Option GoString) (st : State)
    (appkey secret bucket : GoString) (opts : List S3OptionFunc) :
    State × S3ObjectStorage :=
  let store : S3ObjectStorage :=
    { Bucket := bucket, AccessKey := appkey, AppSecret := secret, website := website }
  let store := opts.foldl (fun s opt => opt s) store
  ({ st with stores := register st.stores (lit "s3") (.s3 store) store.Hostname }, store)

/-- `NewQiniuStorage` of qiniu.go. -/
def NewQiniuStorage (st : State) (cfg : QiniuConfig) : State × QiniuStorage :=
  let store : QiniuStorage := { Config := cfg }
  ({ st with stores := register st.stores (lit "qiniu") (.qiniu store) cfg.Bucket }, store)

/-- `MinioStorage.BucketURI` of minio.go. -/
def MinioStorage.BucketURI (store : MinioStorage) (key : GoString) : BucketURI :=
  lit "minio" ++ lit "://" ++ store.Bucket ++ lit "/" ++ key

/-- `S3ObjectStorage.BucketURI` of s3.go. -/
def S3ObjectStorage.BucketURI (store : S3ObjectStorage) (key : GoString) : BucketURI :=
  lit "qiniu" ++ lit "://" ++ store.Bucket ++ lit "/" ++ key

/-- `QiniuStorage.BucketURI` of qiniu.go. -/
def QiniuStorage.BucketURI (qiniu : QiniuStorage) (key : GoString) : BucketURI :=
  lit "qiniu" ++ lit "://" ++ qiniu.Config.Bucket ++ lit "/" ++ key

/-- `Storage.BucketURI`: the interface method, dispatched on the adapter. -/
def Storage.BucketURI : Storage → GoString → BucketURI
  | .minio s, key => s.BucketURI key
  | .s3 s, key => s.BucketURI key
  | .qiniu s, key => s.BucketURI key

/-! ## Bytes that `url.Parse` leaves as they are -/

/-- A byte that may stand in a bucket name for `url.Parse` to return it as the
host unchanged: not `:` (which would start a port), not `[` (which would start an
IP literal), and either outside ASCII or a byte `net/url` accepts unescaped in a
host name (letters, digits, `-`, `.`, `_`, `~` and some punctuation; not `%`, `/`,
`?`, `#`, `@`, blanks or control characters). -/
def hostByte (b : Nat) : Bool :=
  b != 0x3A && b != 0x5B && (0x80 ≤ b || !shouldEscape b .encodeHost)

/-- A byte that may stand in an object key for `url.Parse` to return it in the
path unchanged: no control character, and none of `#`, `%` and `?`. -/
def pathByte (b : Nat) : Bool :=
  0x20 ≤ b && b != 0x7F && b != 0x23 && b != 0x25 && b != 0x3F

/-! ## Example states -/

/-- The adapter of the scenarios: an S3 store for the bucket `photos`. -/
def photosStore : Storage := .s3 { Bucket := lit "photos" }

/-- A second S3 store, for the bucket `videos`. -/
def videosStore : Storage := .s3 { Bucket := lit "videos" }

/-- The state after `register("s3", photos, "cdn.example.com")` at process start. -/
def photosState : State :=
  State.init.step (.register (lit "s3") photosStore (lit "cdn.example.com"))

/-- The registry after `photos` and then `videos` were registered under `"s3"`. -/
def twoBuckets : Stores :=
  register (register Stores.empty (lit "s3") photosStore (lit "cdn.example.com"))
    (lit "s3") videosStore (lit "video.example.com")

/-- The state after `register("ftp", photos, "cdn.example.com")` at process
start: `register` accepts any scheme string. -/
def ftpState : State :=
  State.init.step (.register (lit "ftp") photosStore (lit "cdn.example.com"))

/-- The result of `NewS3` at process start for the bucket `photos`, with the
option `S3WebPrefix("http://cdn.example.com")`. -/
def newS3Photos : State × S3ObjectStorage :=
  NewS3 none State.init (lit "key") (lit "secret") (lit "photos")
    [S3WebPrefix (lit "http://cdn.example.com")]

/-! ## The object store behind an adapter: `Get` and `Put` -/

/-- What the vendor's server holds: the bytes of each object, by bucket and
key.  The adapters reach it only through their SDK client. -/
abbrev Objects := GoString → GoString → Option (List Nat)

/-- The server with no object. -/
def Objects.empty : Objects := fun _ _ => none

/-- The effect of a successful upload: the object at `(bucket, key)` is `val`. -/
def Objects.put (m : Objects) (bucket key : GoString) (val : List Nat) : Objects :=
  fun b k => if b = bucket ∧ k = key then some val else m b k

/-- `strings.TrimPrefix`. -/
def TrimPrefix (s pre : GoString) : GoString :=
  if pre.isPrefixOf s then s.drop pre.length else s

/-- `MinioStorage.Get` of minio.go: `GetObject` is called with the key as given
(the `TrimPrefix` that follows it assigns a variable that is not read again), and
the object is read to the end; a missing object is an error. -/
def MinioStorage.Get (store : MinioStorage) (objects : Objects) (key : GoString) :
    Option (List Nat) × Option GoString :=
  match objects store.Bucket key with
  | none => (none, some (lit "The specified key does not exist."))
  | some content => (some content, none)

/-- `MinioStorage.Put` of minio.go.  `sdkErr` is the error `PutObject` returns,
`none` when the upload succeeds. -/
def MinioStorage.Put (store : MinioStorage) (objects : Objects) (sdkErr : Option GoString)
    (key : GoString) (val : List Nat) : Objects × Option GoString :=
  let key := TrimPrefix key (lit "/")
  match sdkErr with
  | some err => (objects, some err)
  | none => (objects.put store.Bucket key val, none)

/-- `S3ObjectStorage.Get` of s3.go. -/
def S3ObjectStorage.Get (store : S3ObjectStorage) (objects : Objects) (key : GoString) :
    Option (List Nat) × Option GoString :=
  match objects store.Bucket key with
  | none => (none, some (lit "NoSuchKey"))
  | some content => (some content, none)

/-- `S3ObjectStorage.Put` of s3.go.  `sdkErr` is the error `PutObject` returns. -/
def S3ObjectStorage.Put (store : S3ObjectStorage) (objects : Objects)
    (sdkErr : Option GoString) (key : GoString) (val : List Nat) :
    Objects × Option GoString :=
  match sdkErr with
  | some err => (objects, some err)
  | none => (objects.put store.Bucket key val, none)

/-- `QiniuStorage.Get` of qiniu.go. -/
def QiniuStorage.Get (_qiniu : QiniuStorage) (_objects : Objects) (_key : GoString) :
    Option (List Nat) × Option GoString :=
  (none, some (lit "not implemented"))

/-- `QiniuStorage.Put` of qiniu.go.  `sdkErr` is the error the form uploader's
`Put` returns. -/
def QiniuStorage.Put (qiniu : QiniuStorage) (objects : Objects) (sdkErr : Option GoString)
    (key : GoString) (b : List Nat) : Objects × Option GoString :=
  let bucket := qiniu.Config.Bucket
  match sdkErr with
  | some err => (objects, some err)
  | none => (objects.put bucket key b, none)

/-! ## Goroutines calling `register`

`register` touches the shared map in two atomic operations of `sync.Map`:
`LoadOrStore`, and, when the key was loaded, `Store`.  A goroutine in the middle
of `register` stands between the two; a schedule lists which goroutine makes the
next atomic step. -/

/-- A goroutine running `register(scheme, store, host)`: about to call
`LoadOrStore`; or after `LoadOrStore` reported the key loaded with `olds`, about to
`Store`; or returned. -/
inductive Goroutine where
  | call (scheme : GoString) (store : Storage) (host : GoString)
  | loaded (scheme : GoString) (olds sts : List storeHost)
  | returned
deriving DecidableEq

/-- The next atomic step of a goroutine on the shared map. -/
def Goroutine.step (stores : Stores) : Goroutine → Stores × Goroutine
  | .call scheme store host =>
    let sts : List storeHost := [{ Bucket := store.BucketName, Host := host, store := store }]
    match stores.LoadOrStore scheme sts with
    | (stores1, olds, true) => (stores1, .loaded scheme olds sts)
    | (stores1, _, false) => (stores1, .returned)
  | .loaded scheme olds sts => (stores.Store scheme (olds ++ sts), .returned)
  | .returned => (stores, .returned)

/-- The shared map and the goroutines after the steps of a schedule; an entry
of the schedule that names no goroutine is passed over. -/
def runSchedule (stores : Stores) (gs : List Goroutine) : List Nat → Stores × List Goroutine
  | [] => (stores, gs)
  | i :: rest =>
    match gs[i]? with
    | none => runSchedule stores gs rest
    | some g => runSchedule (g.step stores).1 (gs.set i (g.step stores).2) rest

/-- The goroutines of `N` concurrent `register` calls, none started. -/
def spawn (calls : List (GoString × Storage × GoString)) : List Goroutine :=
  calls.map fun c => .call c.1 c.2.1 c.2.2

/-- An upper bound on the atomic steps a goroutine still makes before
`register` returns. -/
def Goroutine.stepsLeft : Goroutine → Nat
  | .call _ _ _ => 2
  | .loaded _ _ _ => 1
  | .returned => 0

/-- What holds of the shared map and the goroutines at every point of a
schedule: the goroutine of each call has not started, or stands between
`LoadOrStore` and `Store` holding the list the map still has for its scheme, or
has returned and its bucket is found. -/
def registerInv (calls : List (GoString × Storage × GoString)) (stores : Stores)
    (gs : List Goroutine) : Prop :=
  gs.length = calls.length ∧
  ∀ (i : Nat) (c : GoString × Storage × GoString), calls[i]? = some c →
    gs[i]? = some (Goroutine.call c.1 c.2.1 c.2.2) ∨
    (∃ olds, gs[i]? = some (Goroutine.loaded c.1 olds
        [{ Bucket := c.2.1.BucketName, Host := c.2.2, store := c.2.1 }]) ∧
      stores c.1 = some olds) ∨
    (gs[i]? = some Goroutine.returned ∧
      (GetBucketHost stores c.1 c.2.1.BucketName).2 = true)

/-- Two concurrent calls of the scenarios: `register("s3", videos, ...)` and
`register("minio", media, ...)`. -/
def twoCalls : List (GoString × Storage × GoString) :=
  [(lit "s3", videosStore, lit "video.example.com"),
   (lit "minio", .minio { Bucket := lit "media" }, lit "media.example.com")]

/-! ## Package `net`: IP addresses and networks

`init` of utils.go builds `privateIPBlocks` with the standard library's
`net.ParseCIDR`, and `IsPrivateIP` asks `net.IP` and `net.IPNet` methods.  They
are transcribed from package `net` (the text of Go 1.17).  A function that could
index a slice out of range returns an `Option`, `none` being the panic. -/

/-- `net.IP`: a slice of bytes; the nil slice is the empty list. -/
abbrev IP := List Nat

/-- `net.IPNet`. -/
structure IPNet where
  IP : List Nat
  Mask : List Nat
deriving DecidableEq

/-- `v4InV6Prefix` of package `net`. -/
def v4InV6Prefix : List Nat := [0, 0, 0, 0, 0, 0, 0, 0, 0, 0, 0xff, 0xff]

/-- `net.IPv4`: the 16-byte form of an IPv4 address. -/
def IPv4 (a b c d : Nat) : IP := v4InV6Prefix ++ [a, b, c, d]

/-- `net.IPv6loopback`. -/
def IPv6loopback : IP := [0, 0, 0, 0, 0, 0, 0, 0, 0, 0, 0, 0, 0, 0, 0, 1]

/-- What `dtoi` and `xtoi` return when the loop ends without overflow. -/
def dtoi.finish (n i : Nat) : Nat × Nat × Bool := if i = 0 then (0, 0, false) else (n, i, true)

/-- The loop of `dtoi`. -/
def dtoi.loop : GoString → Nat → Nat → Nat × Nat × Bool
  | [], n, i => dtoi.finish n i
  | c :: rest, n, i =>
    if 0x30 ≤ c ∧ c ≤ 0x39 then
      if n * 10 + (c - 0x30) ≥ 0xFFFFFF then (0xFFFFFF, i, false)
      else loop rest (n * 10 + (c - 0x30)) (i + 1)
    else dtoi.finish n i

/-- `dtoi` of package `net`: the decimal number at the start of `s`, the count
of bytes read, and whether a number was read without overflow. -/
def dtoi (s : GoString) : Nat × Nat × Bool := dtoi.loop s 0 0

/-- The loop of `xtoi`. -/
def xtoi.loop : GoString → Nat → Nat → Nat × Nat × Bool
  | [], n, i => dtoi.finish n i
  | c :: rest, n, i =>
    if ishex c then
      if n * 16 + unhex c ≥ 0xFFFFFF then (0, i, false)
      else loop rest (n * 16 + unhex c) (i + 1)
    else dtoi.finish n i

/-- `xtoi` of package `net`: the hexadecimal number at the start of `s`. -/
def xtoi (s : GoString) : Nat × Nat × Bool := xtoi.loop s 0 0

/-- The loop of `parseIPv4`: `k` octets are still to be read, `p` holds the
octets read so far. -/
def parseIPv4.loop : Nat → GoString → List Nat → Option (List Nat)
  | 0, s, p => if s.length ≠ 0 then none else some p
  | k + 1, s, p =>
    if s.length = 0 then none
    else if p.length > 0 ∧ s.head? ≠ some 0x2E then none
    else
      let s := if p.length > 0 then s.drop 1 else s
      if (dtoi s).2.2 = false ∨ (dtoi s).1 > 0xFF then none
      else if (dtoi s).2.1 > 1 ∧ s.head? = some 0x30 then none
      else loop k (s.drop (dtoi s).2.1) (p ++ [(dtoi s).1])

/-- `parseIPv4` of package `net`; `none` is the nil result. -/
def parseIPv4 (s : GoString) : Option IP :=
  (parseIPv4.loop 4 s []).map fun p => v4InV6Prefix ++ p

/-- The end of `parseIPv6`, after the loop: the whole string must be used, and
the ellipsis is expanded. -/
def parseIPv6.post (s : GoString) (ip : List Nat) (ellipsis : Option Nat) : Option IP :=
  if s.length ≠ 0 then none
  else if ip.length < 16 then
    match ellipsis with
    | none => none
    | some e => some (ip.take e ++ List.replicate (16 - ip.length) 0 ++ ip.drop e)
  else if ellipsis.isSome then none
  else some ip

/-- The loop of `parseIPv6`: `k` 16-bit groups are still to be read, `ip` holds
the bytes written so far (the index `i` is its length). -/
def parseIPv6.loop : Nat → GoString → List Nat → Option Nat → Option IP
  | 0, s, ip, ellipsis => parseIPv6.post s ip ellipsis
  | k + 1, s, ip, ellipsis =>
    if (xtoi s).2.2 = false ∨ (xtoi s).1 > 0xFFFF then none
    else if s[(xtoi s).2.1]? = some 0x2E then
      if ellipsis.isNone ∧ ip.length ≠ 12 then none
      else if ip.length + 4 > 16 then none
      else
        match parseIPv4 s with
        | none => none
        | some ip4 => parseIPv6.post [] (ip ++ ip4.drop 12) ellipsis
    else
      let ip := ip ++ [(xtoi s).1 / 256, (xtoi s).1 % 256]
      let s := s.drop (xtoi s).2.1
      if s.length = 0 then parseIPv6.post s ip ellipsis
      else if s.head? ≠ some 0x3A ∨ s.length = 1 then none
      else if (s.drop 1).head? = some 0x3A then
        if ellipsis.isSome then none
        else if (s.drop 2).length = 0 then parseIPv6.post (s.drop 2) ip (some ip.length)
        else loop k (s.drop 2) ip (some ip.length)
      else loop k (s.drop 1) ip ellipsis

/-- `parseIPv6` of package `net`. -/
def parseIPv6 (s : GoString) : Option IP :=
  if [0x3A, 0x3A].isPrefixOf s then
    if (s.drop 2).length = 0 then some (List.replicate 16 0)
    else parseIPv6.loop 8 (s.drop 2) [] (some 0)
  else parseIPv6.loop 8 s [] none

/-- `net.ParseIP`. -/
def ParseIP (s : GoString) : Option IP :=
  match s.find? fun c => c = 0x2E ∨ c = 0x3A with
  | some c => if c = 0x2E then parseIPv4 s else parseIPv6 s
  | none => none

/-- The loop of `net.CIDRMask`: `l` bytes to write, `n` one bits left. -/
def CIDRMask.loop : Nat → Nat → List Nat
  | 0, _ => []
  | l + 1, n => if n ≥ 8 then 0xff :: loop l (n - 8) else (255 - 255 / 2 ^ n) :: loop l 0

/-- `net.CIDRMask`. -/
def CIDRMask (ones bits : Nat) : Option (List Nat) :=
  if bits ≠ 32 ∧ bits ≠ 128 then none
  else if ones > bits then none
  else some (CIDRMask.loop (bits / 8) ones)

/-- `net.IP.Mask`. -/
def IP.Mask (ip : IP) (mask : List Nat) : Option IP :=
  let mask := if mask.length = 16 ∧ ip.length = 4 ∧ (mask.take 12).all (fun b => b = 0xff)
    then mask.drop 12 else mask
  let ip := if mask.length = 4 ∧ ip.length = 16 ∧ ip.take 12 = v4InV6Prefix
    then ip.drop 12 else ip
  if ip.length ≠ mask.length then none
  else some (List.zipWith (fun a b => a &&& b) ip mask)

/-- `net.ParseCIDR`: the network of a CIDR string, `none` on a parse error. -/
def ParseCIDR (s : GoString) : Option IPNet :=
  if s.elem 0x2F = false then none
  else
    let addr := (cutByte 0x2F s).1
    let mask := (cutByte 0x2F s).2.1
    let iplen := if (parseIPv4 addr).isSome then 4 else 16
    let ip := match parseIPv4 addr with
      | some ip => some ip
      | none => parseIPv6 addr
    match ip with
    | none => none
    | some ip =>
      if (dtoi mask).2.2 = false ∨ (dtoi mask).2.1 ≠ mask.length ∨ (dtoi mask).1 > 8 * iplen
      then none
      else
        match CIDRMask (dtoi mask).1 (8 * iplen) with
        | none => none
        | some m => some { IP := (ip.Mask m).getD [], Mask := m }

/-- `net.IP.To4`; `none` is the nil result. -/
def IP.To4 (ip : IP) : Option IP :=
  if ip.length = 4 then some ip
  else if ip.length = 16 ∧ (ip.take 10).all (fun b => b = 0) ∧ ip[10]? = some 0xff ∧
      ip[11]? = some 0xff then some (ip.drop 12)
  else none

/-- `net.IP.Equal`. -/
def IP.Equal (ip x : IP) : Bool :=
  if ip.length = x.length then ip = x
  else if ip.length = 4 ∧ x.length = 16 then x.take 12 = v4InV6Prefix ∧ ip = x.drop 12
  else if ip.length = 16 ∧ x.length = 4 then ip.take 12 = v4InV6Prefix ∧ ip.drop 12 = x
  else false

/-- `net.IP.IsLoopback`. -/
def IP.IsLoopback (ip : IP) : Option Bool :=
  match ip.To4 with
  | some ip4 => ip4[0]?.map fun a => a = 127
  | none => some (ip.Equal IPv6loopback)

/-- `net.IP.IsLinkLocalUnicast`. -/
def IP.IsLinkLocalUnicast (ip : IP) : Option Bool :=
  match ip.To4 with
  | some ip4 =>
    ip4[0]?.bind fun a => if a ≠ 169 then some false else ip4[1]?.map fun b => b = 254
  | none =>
    if ip.length ≠ 16 then some false
    else ip[0]?.bind fun a =>
      if a ≠ 0xfe then some false else ip[1]?.map fun b => b &&& 0xc0 = 0x80

/-- `net.IP.IsLinkLocalMulticast`. -/
def IP.IsLinkLocalMulticast (ip : IP) : Option Bool :=
  match ip.To4 with
  | some ip4 =>
    ip4[0]?.bind fun a => if a ≠ 224 then some false else
      ip4[1]?.bind fun b => if b ≠ 0 then some false else ip4[2]?.map fun c => c = 0
  | none =>
    if ip.length ≠ 16 then some false
    else ip[0]?.bind fun a =>
      if a ≠ 0xff then some false else ip[1]?.map fun b => b &&& 0x0f = 0x02

/-- `networkNumberAndMask` of package `net`; the nil results are empty lists. -/
def networkNumberAndMask (n : IPNet) : List Nat × List Nat :=
  let ip := match IP.To4 n.IP with
    | some ip4 => some ip4
    | none => if n.IP.length ≠ 16 then none else some n.IP
  match ip with
  | none => ([], [])
  | some ip =>
    if n.Mask.length = 4 then
      if ip.length ≠ 4 then ([], []) else (ip, n.Mask)
    else if n.Mask.length = 16 then
      if ip.length = 4 then (ip, n.Mask.drop 12) else (ip, n.Mask)
    else ([], [])

/-- The loop of `IPNet.Contains` over the indices. -/
def IPNet.Contains.loop (nn m ip : List Nat) : List Nat → Option Bool
  | [] => some true
  | i :: rest =>
    nn[i]?.bind fun a => m[i]?.bind fun b => ip[i]?.bind fun c =>
      if a &&& b ≠ c &&& b then some false else loop nn m ip rest

/-- `net.IPNet.Contains`. -/
def IPNet.Contains (n : IPNet) (ip : List Nat) : Option Bool :=
  let ip := match IP.To4 ip with
    | some x => x
    | none => ip
  if ip.length ≠ (networkNumberAndMask n).1.length then some false
  else IPNet.Contains.loop (networkNumberAndMask n).1 (networkNumberAndMask n).2 ip
    (List.range ip.length)

/-- The first loop of `init` of utils.go: `privateIPBlocks`, or `none` when a
CIDR string does not parse and `init` panics. -/
def privateIPBlocks : Option (List IPNet) :=
  [lit "127.0.0.0/8", lit "10.0.0.0/8", lit "172.16.0.0/12", lit "192.168.0.0/16",
   lit "169.254.0.0/16", lit "::1/128", lit "fe80::/10", lit "fc00::/7"].mapM ParseCIDR

/-- The second loop of `init` of utils.go: `availableIPBlocks`. -/
def availableIPBlocks : Option (List IPNet) :=
  [lit "10.0.0.0/8", lit "172.16.0.0/12", lit "192.168.0.0/16", lit "fe80::/10",
   lit "fc00::/7"].mapM ParseCIDR

/-- The loop of `IsPrivateIP` over the blocks. -/
def IsPrivateIP.loop (ip : IP) : List IPNet → Option Bool
  | [] => some false
  | block :: rest =>
    (block.Contains ip).bind fun c => if c then some true else loop ip rest

/-- `IsPrivateIP` of utils.go, given the blocks `init` has built. -/
def IsPrivateIP (ip : IP) : Option Bool :=
  privateIPBlocks.bind fun blocks => availableIPBlocks.bind fun _ =>
    ip.IsLoopback.bind fun lo => if lo then some true else
      ip.IsLinkLocalUnicast.bind fun u => if u then some true else
        ip.IsLinkLocalMulticast.bind fun m => if m then some true else
          IsPrivateIP.loop ip blocks

/-! ## Private addresses, as the specification words them -/

/-- The IPv4 address a `net.IP` value stands for, if any: the four bytes of the
4-byte form, or the last four of the 16-byte IPv4-mapped form `::ffff:a.b.c.d`. -/
def ipv4Of : IP → Option (Nat × Nat × Nat × Nat)
  | [a, b, c, d] => some (a, b, c, d)
  | [z0, z1, z2, z3, z4, z5, z6, z7, z8, z9, f0, f1, a, b, c, d] =>
    if z0 = 0 ∧ z1 = 0 ∧ z2 = 0 ∧ z3 = 0 ∧ z4 = 0 ∧ z5 = 0 ∧ z6 = 0 ∧ z7 = 0 ∧ z8 = 0 ∧
        z9 = 0 ∧ f0 = 0xff ∧ f1 = 0xff then some (a, b, c, d)
    else none
  | _ => none

/-- Loopback addresses: `127.x.x.x` and `::1`. -/
def loopbackAddress (ip : IP) : Bool :=
  match ipv4Of ip with
  | some (a, _, _, _) => a = 127
  | none => ip = [0, 0, 0, 0, 0, 0, 0, 0, 0, 0, 0, 0, 0, 0, 0, 1]

/-- Link-local addresses: unicast `169.254.x.x` and `fe80::/10`, multicast
`224.0.0.x` and `ffx2::`. -/
def linkLocalAddress (ip : IP) : Bool :=
  match ipv4Of ip with
  | some (a, b, c, _) => (a = 169 ∧ b = 254) ∨ (a = 224 ∧ b = 0 ∧ c = 0)
  | none =>
    match ip with
    | b0 :: b1 :: rest =>
      rest.length = 14 ∧ ((b0 = 0xfe ∧ 0x80 ≤ b1 ∧ b1 ≤ 0xbf) ∨ (b0 = 0xff ∧ b1 % 16 = 2))
    | _ => false

/-- Membership in one of the blocks `127.0.0.0/8`, `10.0.0.0/8`, `172.16.0.0/12`,
`192.168.0.0/16`, `169.254.0.0/16`, `::1/128`, `fe80::/10`, `fc00::/7`. -/
def inPrivateBlock (ip : IP) : Bool :=
  match ipv4Of ip with
  | some (a, b, _, _) =>
    a = 127 ∨ a = 10 ∨ (a = 172 ∧ 16 ≤ b ∧ b ≤ 31) ∨ (a = 192 ∧ b = 168) ∨
      (a = 169 ∧ b = 254)
  | none =>
    match ip with
    | b0 :: b1 :: rest =>
      rest.length = 14 ∧
        (ip = [0, 0, 0, 0, 0, 0, 0, 0, 0, 0, 0, 0, 0, 0, 0, 1] ∨
          (b0 = 0xfe ∧ 0x80 ≤ b1 ∧ b1 ≤ 0xbf) ∨ b0 = 0xfc ∨ b0 = 0xfd)
    | _ => false

/-! ## `URL.String` (package `net/url`) and `path.Join` (package `path`) -/

/-- `validEncoded` of `net/url`. -/
def validEncoded (s : GoString) (mode : encoding) : Bool :=
  s.all fun c =>
    c ∈ [0x21, 0x24, 0x26, 0x27, 0x28, 0x29, 0x2A, 0x2B, 0x2C, 0x3B, 0x3D, 0x3A, 0x40,
         0x5B, 0x5D, 0x25] || !shouldEscape c mode

/-- `URL.EscapedPath` of `net/url`. -/
def URL.EscapedPath (u : URL) : GoString :=
  if u.RawPath ≠ [] ∧ validEncoded u.RawPath .encodePath = true ∧
      unescape u.RawPath .encodePath = some u.Path then u.RawPath
  else if u.Path = [0x2A] then [0x2A]
  else escape u.Path .encodePath

/-- `URL.EscapedFragment` of `net/url`. -/
def URL.EscapedFragment (u : URL) : GoString :=
  if u.RawFragment ≠ [] ∧ validEncoded u.RawFragment .encodeFragment = true ∧
      unescape u.RawFragment .encodeFragment = some u.Fragment then u.RawFragment
  else escape u.Fragment .encodeFragment

/-- `Userinfo.String` of `net/url`, for a user that is set. -/
def Userinfo.String (ui : GoString × Option GoString) : GoString :=
  escape ui.1 .encodeUserPassword ++
    match ui.2 with
    | some password => 0x3A :: escape password .encodeUserPassword
    | none => []

/-- `URL.String` of `net/url`. -/
def URL.String (u : URL) : GoString :=
  let scheme : GoString := if u.Scheme ≠ [] then u.Scheme ++ [0x3A] else []
  let body : GoString :=
    if u.Opaque ≠ [] then scheme ++ u.Opaque
    else
      let authority : GoString :=
        if u.Scheme ≠ [] ∨ u.Host ≠ [] ∨ u.User.isSome then
          if u.OmitHost = true ∧ u.Host = [] ∧ u.User.isNone then []
          else
            (if u.Host ≠ [] ∨ u.Path ≠ [] ∨ u.User.isSome then [0x2F, 0x2F] else []) ++
            (match u.User with
              | some ui => Userinfo.String ui ++ [0x40]
              | none => []) ++
            (if u.Host ≠ [] then escape u.Host .encodeHost else [])
        else []
      let path := u.EscapedPath
      let buf := scheme ++ authority ++
        (if path ≠ [] ∧ path.head? ≠ some 0x2F ∧ u.Host ≠ [] then [0x2F] else [])
      let buf := if buf = [] ∧ (cutByte 0x2F path).1.elem 0x3A then [0x2E, 0x2F] else buf
      buf ++ path
  body ++ (if u.ForceQuery = true ∨ u.RawQuery ≠ [] then 0x3F :: u.RawQuery else []) ++
    (if u.Fragment ≠ [] then 0x23 :: u.EscapedFragment else [])

/-- The elements of a path between its slashes. -/
def pathElements (p : GoString) : List GoString :=
  p.foldr (fun c acc =>
    if c = 0x2F then [] :: acc
    else
      match acc with
      | e :: rest => (c :: e) :: rest
      | [] => [[c]]) [[]]

/-- One element read by `path.Clean`; `out` holds the elements written so far,
the last one first.  An empty element and `.` are dropped; `..` removes the last
element written, unless there is none or it is a `..` itself, in which case it is
dropped on a rooted path and written otherwise. -/
def Clean.element (rooted : Bool) (out : List GoString) (e : GoString) : List GoString :=
  if e = [] ∨ e = [0x2E] then out
  else if e = [0x2E, 0x2E] then
    match out with
    | last :: rest => if last = [0x2E, 0x2E] then e :: out else rest
    | [] => if rooted then out else [e]
  else e :: out

/-- `path.Clean`: the shortest path name equivalent to `p` by lexical
processing. -/
def path.Clean (p : GoString) : GoString :=
  if p = [] then [0x2E]
  else
    let rooted : Bool := p.head? = some 0x2F
    let out := ((pathElements p).foldl (Clean.element rooted) []).reverse
    let joined := (if rooted then [0x2F] else []) ++ [0x2F].intercalate out
    if joined = [] then [0x2E] else joined

/-- `path.Join`: the elements from the first non-empty one on, joined with
slashes and cleaned; the empty string when every element is empty. -/
def path.Join (elem : List GoString) : GoString :=
  match elem.dropWhile fun e => e = [] with
  | [] => []
  | rest => path.Clean ([0x2F].intercalate rest)

/-- `MinioStorage.hasHttpPrefix` of minio.go. -/
def MinioStorage.hasHttpPrefix (_store : MinioStorage) (url : GoString) : Bool :=
  (lit "http://").isPrefixOf url || (lit "https://").isPrefixOf url

/-- `MinioStorage.WebURL` of minio.go; the error of a failed `url.Parse` is
written `"parse"`. -/
def MinioStorage.WebURL (store : MinioStorage) (key : GoString) : GoString × Option GoString :=
  let parsed :=
    if store.hasHttpPrefix store.HttpPrefix then url.Parse store.HttpPrefix
    else url.Parse (lit "http://" ++ store.HttpPrefix)
  match parsed with
  | none => ([], some (lit "parse"))
  | some u => (URL.String { u with Path := path.Join [u.Path, key] }, none)

/-! ## Theorems -/

/-! ### The registry -/

theorem scan_eq_find (bucket : GoString) (l : List storeHost) :
    GetBucketHost.scan bucket l =
      match l.find? (fun st => decide (st.Bucket = bucket)) with
      | some st => (st.Host, true)
      | none => ([], false) := by
  induction l with
  | nil => rfl
  | cons st rest ih =>
    by_cases h : st.Bucket = bucket
    · simp [GetBucketHost.scan, List.find?, h]
    · simp [GetBucketHost.scan, List.find?, h, ih]

theorem scan_found_iff (bucket : GoString) (l : List storeHost) :
    (GetBucketHost.scan bucket l).2 = true ↔ ∃ st ∈ l, st.Bucket = bucket := by
  induction l with
  | nil => simp [GetBucketHost.scan]
  | cons st rest ih =>
    by_cases h : st.Bucket = bucket
    · simp [GetBucketHost.scan, h]
    · simp [GetBucketHost.scan, h, ih]

theorem scan_not_found (bucket : GoString) (l : List storeHost)
    (h : (GetBucketHost.scan bucket l).2 = false) : GetBucketHost.scan bucket l = ([], false) := by
  induction l with
  | nil => rfl
  | cons st rest ih =>
    by_cases hb : st.Bucket = bucket
    · simp [GetBucketHost.scan, hb] at h
    · simp only [GetBucketHost.scan, hb, if_false] at h ⊢
      exact ih h

theorem scan_first (bucket : GoString) (pre post : List storeHost) (st : storeHost)
    (hpre : ∀ x ∈ pre, x.Bucket ≠ bucket) (hst : st.Bucket = bucket) :
    GetBucketHost.scan bucket (pre ++ st :: post) = (st.Host, true) := by
  induction pre with
  | nil => simp [GetBucketHost.scan, hst]
  | cons x rest ih =>
    have hx : x.Bucket ≠ bucket := hpre x (List.mem_cons_self _ _)
    simp only [List.cons_append, GetBucketHost.scan, hx, if_false]
    exact ih fun y hy => hpre y (List.mem_cons_of_mem _ hy)

theorem scan_append_of_found (bucket : GoString) (l l2 : List storeHost)
    (h : (GetBucketHost.scan bucket l).2 = true) :
    GetBucketHost.scan bucket (l ++ l2) = GetBucketHost.scan bucket l := by
  induction l with
  | nil => simp [GetBucketHost.scan] at h
  | cons st rest ih =>
    by_cases hb : st.Bucket = bucket
    · simp [GetBucketHost.scan, hb]
    · simp only [List.cons_append, GetBucketHost.scan, hb, if_false] at h ⊢
      exact ih h

theorem scan_append_of_not_found (bucket : GoString) (l l2 : List storeHost)
    (h : (GetBucketHost.scan bucket l).2 = false) :
    GetBucketHost.scan bucket (l ++ l2) = GetBucketHost.scan bucket l2 := by
  induction l with
  | nil => rfl
  | cons st rest ih =>
    by_cases hb : st.Bucket = bucket
    · simp [GetBucketHost.scan, hb] at h
    · simp only [List.cons_append, GetBucketHost.scan, hb, if_false] at h ⊢
      exact ih h

theorem register_same (stores : Stores) (scheme : GoString) (store : Storage)
    (host : GoString) :
    (register stores scheme store host) scheme =
      some ((stores scheme).getD [] ++
        [{ Bucket := store.BucketName, Host := host, store := store }]) := by
  unfold register Stores.LoadOrStore
  cases h : stores scheme <;> simp [Stores.Store]

theorem register_other (stores : Stores) (scheme : GoString) (store : Storage)
    (host k : GoString) (hk : k ≠ scheme) :
    (register stores scheme store host) k = stores k := by
  unfold register Stores.LoadOrStore
  cases h : stores scheme <;> simp [Stores.Store, hk]

theorem GetBucketHost_register_of_found (stores : Stores) (s : GoString) (store : Storage)
    (h scheme bucket : GoString) (hf : (GetBucketHost stores scheme bucket).2 = true) :
    GetBucketHost (register stores s store h) scheme bucket =
      GetBucketHost stores scheme bucket := by
  by_cases hs : scheme = s
  · subst hs
    unfold GetBucketHost Stores.Load at hf ⊢
    rw [register_same]
    cases hm : stores scheme with
    | none => simp [hm] at hf
    | some l =>
      simp only [hm] at hf
      simpa using scan_append_of_found bucket l _ hf
  · unfold GetBucketHost Stores.Load
    rw [register_other _ _ _ _ _ hs]

theorem GetBucketHost_registerAll_of_found (calls : List (GoString × Storage × GoString))
    (stores : Stores) (scheme bucket : GoString)
    (hf : (GetBucketHost stores scheme bucket).2 = true) :
    GetBucketHost (registerAll stores calls) scheme bucket =
      GetBucketHost stores scheme bucket := by
  induction calls generalizing stores with
  | nil => rfl
  | cons c rest ih =>
    have h1 := GetBucketHost_register_of_found stores c.1 c.2.1 c.2.2 scheme bucket hf
    have h2 := ih (register stores c.1 c.2.1 c.2.2) (by rw [h1]; exact hf)
    simpa [registerAll] using h2.trans h1

theorem run_UnknownURI (calls : List Call) (st : State) :
    (st.run calls).UnknownURI = lastUnknownURI st.UnknownURI calls := by
  induction calls generalizing st with
  | nil => rfl
  | cons c rest ih =>
    cases c with
    | SetUnknownURI uri =>
      simpa [State.run, State.step, SetUnknownURI, lastUnknownURI] using
        ih (SetUnknownURI st uri)
    | register scheme store host =>
      simpa [State.run, State.step, lastUnknownURI] using
        ih { st with stores := register st.stores scheme store host }

/-! ### Resolution -/

theorem String_of_empty (st : State) (uri : BucketURI) (he : Empty uri = true) :
    BucketURI.String st uri = st.UnknownURI := by
  simp [BucketURI.String, BucketURI.UnknownURI, he]

theorem String_of_parse (st : State) (uri : BucketURI) (u : URL)
    (hne : Empty uri = false) (hp : url.Parse uri = some u) :
    BucketURI.String st uri =
      if (GetBucketHost st.stores u.Scheme u.Host).2 = true ∧
          (u.Scheme = lit "minio" ∨ u.Scheme = lit "s3" ∨ u.Scheme = lit "qiniu") then
        lit "http://" ++ (GetBucketHost st.stores u.Scheme u.Host).1 ++ lit "/" ++ u.Host ++ u.Path
      else uri := by
  unfold BucketURI.String
  simp only [hne, hp]
  rcases hg : GetBucketHost st.stores u.Scheme u.Host with ⟨host, found⟩
  cases found <;> simp

theorem String_of_parse_error (st : State) (uri : BucketURI)
    (hne : Empty uri = false) (hp : url.Parse uri = none) :
    BucketURI.String st uri = uri := by
  simp [BucketURI.String, hne, hp]

theorem String_congr (st st2 : State) (uri : BucketURI)
    (hu : st2.UnknownURI = st.UnknownURI)
    (hg : ∀ u, url.Parse uri = some u →
      GetBucketHost st2.stores u.Scheme u.Host = GetBucketHost st.stores u.Scheme u.Host) :
    BucketURI.String st2 uri = BucketURI.String st uri := by
  cases he : Empty uri with
  | true => rw [String_of_empty _ _ he, String_of_empty _ _ he, hu]
  | false =>
    cases hp : url.Parse uri with
    | none => rw [String_of_parse_error _ _ he hp, String_of_parse_error _ _ he hp]
    | some u => rw [String_of_parse _ _ u he hp, String_of_parse _ _ u he hp, hg u hp]

/-! ### `url.Parse` on references `scheme://bucket/key` -/

theorem cutByte_of_not_mem (sep : Nat) (s : GoString) (h : sep ∉ s) :
    cutByte sep s = (s, [], false) := by
  have h1 : ∀ x ∈ s, (x != sep) = true := by
    intro x hx
    simp only [bne_iff_ne, ne_eq]
    rintro rfl
    exact h hx
  unfold cutByte
  rw [List.takeWhile_eq_self_iff.2 h1, List.dropWhile_eq_nil_iff.2 h1]
  simp [h]

theorem lastCutByte_of_not_mem (sep : Nat) (s : GoString) (h : sep ∉ s) :
    lastCutByte sep s = none := by
  simp [lastCutByte, h]

theorem unescape_check_of (mode : encoding) (s : GoString)
    (h : ∀ b ∈ s, b ≠ 0x25 ∧
      ((mode = .encodeHost ∨ mode = .encodeZone) → b < 0x80 →
        shouldEscape b .encodeHost = false)) :
    unescape.check mode s = true := by
  induction s with
  | nil => rfl
  | cons c rest ih =>
    have hc := h c (List.mem_cons_self _ _)
    have hrest := ih fun b hb => h b (List.mem_cons_of_mem _ hb)
    unfold unescape.check
    rw [if_neg hc.1, hrest]
    by_cases hm : (mode = .encodeHost ∨ mode = .encodeZone) ∧ c < 0x80
    · simp [hc.2 hm.1 hm.2]
    · have : ¬((mode = .encodeHost ∨ mode = .encodeZone) ∧ c < 0x80 ∧
          shouldEscape c .encodeHost = true) := fun hh => hm ⟨hh.1, hh.2.1⟩
      simp [this]

theorem unescape_decode_of (mode : encoding) (s : GoString)
    (h : ∀ b ∈ s, b ≠ 0x25) (hm : mode ≠ .encodeQueryComponent) :
    unescape.decode mode s = s := by
  induction s with
  | nil => rfl
  | cons c rest ih =>
    have hc := h c (List.mem_cons_self _ _)
    have hrest := ih fun b hb => h b (List.mem_cons_of_mem _ hb)
    unfold unescape.decode
    simp [hc, hm, hrest]

theorem unescape_of (mode : encoding) (s : GoString)
    (h : ∀ b ∈ s, b ≠ 0x25 ∧
      ((mode = .encodeHost ∨ mode = .encodeZone) → b < 0x80 →
        shouldEscape b .encodeHost = false))
    (hm : mode ≠ .encodeQueryComponent) :
    unescape s mode = some s := by
  unfold unescape
  rw [unescape_check_of mode s h, unescape_decode_of mode s (fun b hb => (h b hb).1) hm]
  rfl

theorem hostByte_spec (b : Nat) (h : hostByte b = true) :
    b ≠ 0x3A ∧ b ≠ 0x5B ∧ b ≠ 0x2F ∧ b ≠ 0x40 ∧ b ≠ 0x25 ∧ b ≠ 0x23 ∧ b ≠ 0x3F ∧
      0x20 ≤ b ∧ b ≠ 0x7F ∧ (b < 0x80 → shouldEscape b .encodeHost = false) := by
  by_cases hb : b < 128
  · have key : ∀ c < 128, hostByte c = true →
        c ≠ 0x3A ∧ c ≠ 0x5B ∧ c ≠ 0x2F ∧ c ≠ 0x40 ∧ c ≠ 0x25 ∧ c ≠ 0x23 ∧ c ≠ 0x3F ∧
          0x20 ≤ c ∧ c ≠ 0x7F ∧ (c < 0x80 → shouldEscape c .encodeHost = false) := by
      decide
    exact key b hb h
  · refine ⟨?_, ?_, ?_, ?_, ?_, ?_, ?_, ?_, ?_, ?_⟩ <;> omega

theorem pathByte_spec (b : Nat) (h : pathByte b = true) :
    0x20 ≤ b ∧ b ≠ 0x7F ∧ b ≠ 0x23 ∧ b ≠ 0x25 ∧ b ≠ 0x3F := by
  simp only [pathByte, Bool.and_eq_true, decide_eq_true_eq, bne_iff_ne, ne_eq] at h
  omega

theorem parse_reference (scheme bucket key : GoString)
    (hgs : ∀ r, getScheme (scheme ++ 0x3A :: r) = some (scheme, r))
    (hlow : ToLower scheme = scheme) (hne : scheme ≠ [])
    (hsch : ∀ b ∈ scheme, 0x20 ≤ b ∧ b ≠ 0x7F ∧ b ≠ 0x23 ∧ b ≠ 0x2A)
    (hb : ∀ b ∈ bucket, hostByte b = true) (hk : ∀ b ∈ key, pathByte b = true) :
    url.parse (scheme ++ 0x3A :: 0x2F :: 0x2F :: (bucket ++ 0x2F :: key)) =
      some { Scheme := scheme, Host := bucket, Path := 0x2F :: key,
             RawPath := if escape (0x2F :: key) .encodePath = 0x2F :: key then []
               else 0x2F :: key } := by
  have hT : ∀ b ∈ bucket ++ 0x2F :: key, 0x20 ≤ b ∧ b ≠ 0x7F ∧ b ≠ 0x23 ∧ b ≠ 0x3F := by
    intro b hmem
    rcases List.mem_append.1 hmem with h | h
    · have := hostByte_spec b (hb b h); omega
    · rcases List.mem_cons.1 h with h | h
      · omega
      · have := pathByte_spec b (hk b h); omega
  have hctl : stringContainsCTLByte
      (scheme ++ 0x3A :: 0x2F :: 0x2F :: (bucket ++ 0x2F :: key)) = false := by
    simp only [stringContainsCTLByte, List.any_eq_false, Bool.or_eq_true, decide_eq_true_eq,
      not_or, not_lt]
    intro b hmem
    rcases List.mem_append.1 hmem with h | h
    · have := hsch b h; omega
    · simp only [List.mem_cons] at h
      rcases h with h | h | h | h
      · omega
      · omega
      · omega
      · have := hT b (by simpa using h); omega
  have hstar : scheme ++ 0x3A :: 0x2F :: 0x2F :: (bucket ++ 0x2F :: key) ≠ [0x2A] := by
    intro h
    have := congrArg List.length h
    simp at this
    omega
  have hq : (0x3F : Nat) ∉ 0x2F :: 0x2F :: (bucket ++ 0x2F :: key) := by
    intro h
    simp only [List.mem_cons] at h
    rcases h with h | h | h
    · omega
    · omega
    · have := hT 0x3F (by simpa using h); omega
  have hcount : List.count (0x3F : Nat) (0x2F :: 0x2F :: (bucket ++ 0x2F :: key)) = 0 :=
    List.count_eq_zero.2 hq
  have hslash : ∀ x ∈ bucket, (x != 0x2F) = true := by
    intro x hx
    have := hostByte_spec x (hb x hx)
    simp only [bne_iff_ne, ne_eq]; omega
  have hauth : List.takeWhile (fun b => b != 0x2F) (bucket ++ 0x2F :: key) = bucket := by
    rw [List.takeWhile_append_of_pos hslash]; simp
  have hrest : List.dropWhile (fun b => b != 0x2F) (bucket ++ 0x2F :: key) = 0x2F :: key := by
    rw [List.dropWhile_append_of_pos hslash]; simp
  have hat : (0x40 : Nat) ∉ bucket := fun h => by
    have := hostByte_spec _ (hb _ h); omega
  have hcolon : (0x3A : Nat) ∉ bucket := fun h => by
    have := hostByte_spec _ (hb _ h); omega
  have hbr : [0x5B].isPrefixOf bucket = false := by
    cases bucket with
    | nil => rfl
    | cons b t =>
      have := hostByte_spec b (hb b (List.mem_cons_self _ _))
      simp [List.isPrefixOf]; omega
  have hhost : unescape bucket .encodeHost = some bucket := by
    apply unescape_of
    · intro b hmem
      have := hostByte_spec b (hb b hmem)
      exact ⟨by omega, fun _ hlt => this.2.2.2.2.2.2.2.2.2 hlt⟩
    · decide
  have hpath : unescape (0x2F :: key) .encodePath = some (0x2F :: key) := by
    apply unescape_of
    · intro b hmem
      refine ⟨?_, fun hm => by rcases hm with hm | hm <;> cases hm⟩
      rcases List.mem_cons.1 hmem with h | h
      · omega
      · have := pathByte_spec b (hk b h); omega
    · decide
  have hph : parseHost bucket = some bucket := by
    unfold parseHost
    rw [hbr, lastCutByte_of_not_mem _ _ hcolon]
    simpa using hhost
  have hpa : parseAuthority bucket = some (none, bucket) := by
    unfold parseAuthority
    rw [lastCutByte_of_not_mem _ _ hat, hph]
    rfl
  unfold url.parse
  rw [hctl, hgs]
  simp only [hstar, hlow, hcount, cutByte_of_not_mem _ _ hq, hne]
  simp [List.isPrefixOf, hauth, hrest, hpa, URL.setPath, hpath, hne]

theorem Parse_reference (scheme bucket key : GoString)
    (hs : scheme = lit "minio" ∨ scheme = lit "s3" ∨ scheme = lit "qiniu")
    (hb : ∀ b ∈ bucket, hostByte b = true) (hk : ∀ b ∈ key, pathByte b = true) :
    url.Parse (scheme ++ lit "://" ++ bucket ++ lit "/" ++ key) =
      some { Scheme := scheme, Host := bucket, Path := lit "/" ++ key,
             RawPath := if escape (lit "/" ++ key) .encodePath = lit "/" ++ key then []
               else lit "/" ++ key } := by
  have hform : scheme ++ lit "://" ++ bucket ++ lit "/" ++ key =
      scheme ++ 0x3A :: 0x2F :: 0x2F :: (bucket ++ 0x2F :: key) := by
    have h1 : lit "://" = [0x3A, 0x2F, 0x2F] := by decide
    have h2 : lit "/" = [0x2F] := by decide
    rw [h1, h2]; simp
  have hp : url.parse (scheme ++ 0x3A :: 0x2F :: 0x2F :: (bucket ++ 0x2F :: key)) =
      some { Scheme := scheme, Host := bucket, Path := 0x2F :: key,
             RawPath := if escape (0x2F :: key) .encodePath = 0x2F :: key then []
               else 0x2F :: key } := by
    rcases hs with rfl | rfl | rfl
    · exact parse_reference _ bucket key (fun _ => rfl) (by decide) (by decide) (by decide) hb hk
    · exact parse_reference _ bucket key (fun _ => rfl) (by decide) (by decide) (by decide) hb hk
    · exact parse_reference _ bucket key (fun _ => rfl) (by decide) (by decide) (by decide) hb hk
  have hhash : (0x23 : Nat) ∉ scheme ++ 0x3A :: 0x2F :: 0x2F :: (bucket ++ 0x2F :: key) := by
    intro hmem
    rcases List.mem_append.1 hmem with h | h
    · rcases hs with rfl | rfl | rfl <;> revert h <;> decide
    · simp only [List.mem_cons, List.mem_append] at h
      rcases h with h | h | h | h | h | h
      · omega
      · omega
      · omega
      · have := hostByte_spec _ (hb _ h); omega
      · omega
      · have := pathByte_spec _ (hk _ h); omega
  rw [hform]
  unfold url.Parse
  rw [cutByte_of_not_mem _ _ hhash, hp]
  have h2 : lit "/" = [0x2F] := by decide
  simp [h2]

theorem dropWhile_append_last {α : Type} (p : α → Bool) (l : List α) (x : α)
    (hx : p x = false) : ∃ l2, (l ++ [x]).dropWhile p = l2 ++ [x] := by
  induction l with
  | nil => exact ⟨[], by simp [List.dropWhile, hx]⟩
  | cons a rest ih =>
    cases ha : p a with
    | true => simpa [List.dropWhile, ha] using ih
    | false => exact ⟨a :: rest, by simp [List.dropWhile, ha]⟩

theorem Empty_cons_ascii (c : Nat) (rest : GoString) (hc : c < 0x80)
    (hns : IsSpace c = false) : Empty (c :: rest) = false := by
  have hdec : decodeRunes (c :: rest) = (c, [c]) :: decodeRunes.go 0 rest := by
    simp [decodeRunes, decodeRunes.go, DecodeRuneInString, hc]
  obtain ⟨l2, hl2⟩ := dropWhile_append_last (fun p : Nat × GoString => IsSpace p.1)
    (decodeRunes.go 0 rest).reverse (c, [c]) hns
  unfold Empty TrimSpace
  rw [hdec, List.dropWhile_cons_of_neg (by simpa using hns), List.reverse_cons, hl2]
  simp

/-! ### C1 -/

/-- C1: for a non-empty BucketURI that `url.Parse` accepts with scheme, host and
path `u`, and whose scheme and host `GetBucketHost` resolves to `h`: `String()`
is `"http://" + h + "/" + u.Host + u.Path` when the scheme is `minio`, `s3` or
`qiniu`, and the raw string for any other scheme. -/
theorem String_registered (st : State) (uri : BucketURI) (u : URL) (h : GoString)
    (hne : Empty uri = false) (hp : url.Parse uri = some u)
    (hg : GetBucketHost st.stores u.Scheme u.Host = (h, true)) :
    ((u.Scheme = lit "minio" ∨ u.Scheme = lit "s3" ∨ u.Scheme = lit "qiniu") →
        BucketURI.String st uri = lit "http://" ++ h ++ lit "/" ++ u.Host ++ u.Path) ∧
    (¬ (u.Scheme = lit "minio" ∨ u.Scheme = lit "s3" ∨ u.Scheme = lit "qiniu") →
        BucketURI.String st uri = uri) := by
  rw [String_of_parse st uri u hne hp, hg]
  constructor
  · intro hs; simp [hs]
  · intro hs; simp [hs]

/-- C1, the scenario: with `("s3", "photos", "cdn.example.com")` registered,
`"s3://photos/avatar.png"` resolves to `"http://cdn.example.com/photos/avatar.png"`. -/
theorem String_registered_witness :
    BucketURI.String photosState (lit "s3://photos/avatar.png") =
      lit "http://cdn.example.com/photos/avatar.png" :=
  ((String_registered photosState (lit "s3://photos/avatar.png")
      { Scheme := lit "s3", Host := lit "photos", Path := lit "/avatar.png" }
      (lit "cdn.example.com") (by decide) (by decide) (by decide)).1 (by decide)).trans
    (by decide)

/-! ### C2 -/

/-- C2, refuted: after `register` is called twice for the scheme `"s3"`, for the
buckets `photos` and `videos`, the second call has changed the entry list and
`GetBucketHost` finds the second bucket as well. -/
theorem register_existing_not_noop :
    twoBuckets (lit "s3") ≠
        (register Stores.empty (lit "s3") photosStore (lit "cdn.example.com")) (lit "s3") ∧
    GetBucketHost twoBuckets (lit "s3") (lit "photos") = (lit "cdn.example.com", true) ∧
    GetBucketHost twoBuckets (lit "s3") (lit "videos") = (lit "video.example.com", true) := by
  decide

/-- C2, amended: if the scheme key already exists with the entry list `olds`,
`register` stores `olds` with the new entry appended at the end and leaves every
other scheme alone; afterwards `GetBucketHost` finds the new bucket, with the new
host when `olds` had no entry for that bucket, and still finds every bucket it
found before, with the same host. -/
theorem register_existing_appends (stores : Stores) (scheme : GoString) (store : Storage)
    (host : GoString) (olds : List storeHost) (h : stores.Load scheme = some olds) :
    (register stores scheme store host).Load scheme =
        some (olds ++ [{ Bucket := store.BucketName, Host := host, store := store }]) ∧
    (∀ k, k ≠ scheme → (register stores scheme store host).Load k = stores.Load k) ∧
    (GetBucketHost (register stores scheme store host) scheme store.BucketName).2 = true ∧
    ((∀ st ∈ olds, st.Bucket ≠ store.BucketName) →
      GetBucketHost (register stores scheme store host) scheme store.BucketName =
        (host, true)) ∧
    (∀ bucket, (GetBucketHost stores scheme bucket).2 = true →
      GetBucketHost (register stores scheme store host) scheme bucket =
        GetBucketHost stores scheme bucket) := by
  have hs : stores scheme = some olds := h
  have hreg : (register stores scheme store host) scheme =
      some (olds ++ [{ Bucket := store.BucketName, Host := host, store := store }]) := by
    rw [register_same, hs]; rfl
  refine ⟨hreg, fun k hk => register_other _ _ _ _ _ hk, ?_, ?_, ?_⟩
  · unfold GetBucketHost Stores.Load
    rw [hreg]
    exact (scan_found_iff _ _).2
      ⟨{ Bucket := store.BucketName, Host := host, store := store }, by simp, rfl⟩
  · intro hno
    unfold GetBucketHost Stores.Load
    rw [hreg]
    exact scan_first _ olds [] _ hno rfl
  · intro bucket hf
    exact GetBucketHost_register_of_found _ _ _ _ _ _ hf

/-- C2, amended, at the scenario: `videos` registered after `photos` under `"s3"`
is appended and found. -/
theorem register_existing_appends_witness :
    twoBuckets.Load (lit "s3") =
      some ([{ Bucket := lit "photos", Host := lit "cdn.example.com", store := photosStore }] ++
        [{ Bucket := videosStore.BucketName, Host := lit "video.example.com",
           store := videosStore }]) :=
  (register_existing_appends
    (register Stores.empty (lit "s3") photosStore (lit "cdn.example.com")) (lit "s3")
    videosStore (lit "video.example.com")
    [{ Bucket := lit "photos", Host := lit "cdn.example.com", store := photosStore }]
    (by decide)).1

/-! ### C3 -/

/-- C3: `GetBucketHost(scheme, bucket)` returns the host of the first entry, in
list order, of the scheme's entry list whose bucket equals `bucket`, with
`true`; it returns `("", false)` exactly when the scheme has no entry list or no
entry of the list has that bucket, so a scheme never registered is not found. -/
theorem GetBucketHost_first_match (stores : Stores) (scheme bucket : GoString) :
    (GetBucketHost stores scheme bucket =
      match (stores.Load scheme).bind
          (fun l => l.find? fun st => decide (st.Bucket = bucket)) with
      | some st => (st.Host, true)
      | none => ([], false)) ∧
    (∀ l pre post st, stores.Load scheme = some l → l = pre ++ st :: post →
      (∀ x ∈ pre, x.Bucket ≠ bucket) → st.Bucket = bucket →
      GetBucketHost stores scheme bucket = (st.Host, true)) ∧
    (GetBucketHost stores scheme bucket = ([], false) ↔
      stores.Load scheme = none ∨
      ∃ l, stores.Load scheme = some l ∧ ∀ st ∈ l, st.Bucket ≠ bucket) ∧
    (GetBucketHost Stores.empty scheme bucket = ([], false)) := by
  refine ⟨?_, ?_, ?_, rfl⟩
  · unfold GetBucketHost
    cases h : stores.Load scheme with
    | none => rfl
    | some l => simpa using scan_eq_find bucket l
  · intro l pre post st hl hsplit hpre hst
    unfold GetBucketHost
    rw [hl, hsplit]
    exact scan_first bucket pre post st hpre hst
  · unfold GetBucketHost
    cases h : stores.Load scheme with
    | none => simp
    | some l =>
      simp only [reduceCtorEq, Option.some.injEq, exists_eq_left', false_or]
      constructor
      · intro he st hst hb
        have : (GetBucketHost.scan bucket l).2 = true := (scan_found_iff _ _).2 ⟨st, hst, hb⟩
        rw [he] at this
        exact Bool.false_ne_true this
      · intro hno
        apply scan_not_found
        cases hf : (GetBucketHost.scan bucket l).2 with
        | false => rfl
        | true =>
          obtain ⟨st, hst, hb⟩ := (scan_found_iff _ _).1 hf
          exact absurd hb (hno st hst)

/-! ### C4 -/

/-- C4, refuted: a percent-escape in the key is decoded and a query is dropped
in the resolved URL, and a reference whose registered scheme is not one of
`minio`, `s3`, `qiniu` resolves to itself. -/
theorem String_reference_not_verbatim :
    (GetBucketHost photosState.stores (lit "s3") (lit "photos") = (lit "cdn.example.com", true) ∧
      BucketURI.String photosState (lit "s3" ++ lit "://" ++ lit "photos" ++ lit "/" ++ lit "a%20b.png")
        = lit "http://cdn.example.com/photos/a b.png" ∧
      BucketURI.String photosState (lit "s3" ++ lit "://" ++ lit "photos" ++ lit "/" ++ lit "a%20b.png")
        ≠ lit "http://" ++ lit "cdn.example.com" ++ lit "/" ++ lit "photos" ++ lit "/" ++ lit "a%20b.png") ∧
    BucketURI.String photosState (lit "s3://photos/a.png?v=1") =
      lit "http://cdn.example.com/photos/a.png" ∧
    BucketURI.String photosState (lit "s3://photos/a.png#top") =
      lit "http://cdn.example.com/photos/a.png" ∧
    (GetBucketHost ftpState.stores (lit "ftp") (lit "photos") = (lit "cdn.example.com", true) ∧
      BucketURI.String ftpState (lit "ftp://photos/avatar.png") = lit "ftp://photos/avatar.png") := by
  decide

/-- C4, amended: for a reference `scheme://bucket/key` whose scheme is `minio`,
`s3` or `qiniu`, whose bucket holds only bytes that `url.Parse` accepts unescaped
in a host (no `:`, `[`, `%`, `/`, `?`, `#`, `@`, blank or control character) and
whose key holds no `?`, `#`, `%` or control character, and whose scheme and
bucket are registered with host `h`, `String()` returns exactly
`"http://" + h + "/" + bucket + "/" + key`. -/
theorem String_reference (st : State) (scheme bucket key h : GoString)
    (hs : scheme = lit "minio" ∨ scheme = lit "s3" ∨ scheme = lit "qiniu")
    (hb : ∀ b ∈ bucket, hostByte b = true) (hk : ∀ b ∈ key, pathByte b = true)
    (hg : GetBucketHost st.stores scheme bucket = (h, true)) :
    BucketURI.String st (scheme ++ lit "://" ++ bucket ++ lit "/" ++ key) =
      lit "http://" ++ h ++ lit "/" ++ bucket ++ lit "/" ++ key := by
  have hne : Empty (scheme ++ lit "://" ++ bucket ++ lit "/" ++ key) = false := by
    rcases hs with rfl | rfl | rfl
    · exact Empty_cons_ascii 0x6D _ (by decide) (by decide)
    · exact Empty_cons_ascii 0x73 _ (by decide) (by decide)
    · exact Empty_cons_ascii 0x71 _ (by decide) (by decide)
  rw [String_of_parse st _ _ hne (Parse_reference scheme bucket key hs hb hk)]
  simp [hg, hs]

/-- C4, amended, at the scenario: `"s3://photos/2024/avatar.png"` with
`("s3", "photos", "cdn.example.com")` registered. -/
theorem String_reference_witness :
    BucketURI.String photosState
        (lit "s3" ++ lit "://" ++ lit "photos" ++ lit "/" ++ lit "2024/avatar.png") =
      lit "http://" ++ lit "cdn.example.com" ++ lit "/" ++ lit "photos" ++ lit "/" ++
        lit "2024/avatar.png" :=
  String_reference photosState (lit "s3") (lit "photos") (lit "2024/avatar.png")
    (lit "cdn.example.com") (by decide) (by decide) (by decide) (by decide)

/-! ### C5 -/

/-- C5, refuted: at process start nothing is registered, the empty reference
parses to the empty scheme and bucket, which `GetBucketHost` does not find, and
`String()` returns the fallback URL, not the raw empty string. -/
theorem String_unregistered_empty :
    url.Parse (lit "") = some {} ∧
    GetBucketHost State.init.stores (lit "") (lit "") = ([], false) ∧
    BucketURI.String State.init (lit "") = lit "http://127.0.0.1:9000/keyue/unknown.png" ∧
    BucketURI.String State.init (lit "") ≠ lit "" := by
  decide

/-- C5, amended: for every reference that is not empty or whitespace-only and
whose scheme and bucket `GetBucketHost` does not find, `String()` returns the raw
string unchanged. -/
theorem String_unregistered (st : State) (uri : BucketURI) (hne : Empty uri = false)
    (hg : ∀ u, url.Parse uri = some u →
      (GetBucketHost st.stores u.Scheme u.Host).2 = false) :
    BucketURI.String st uri = uri := by
  cases hp : url.Parse uri with
  | none => exact String_of_parse_error st uri hne hp
  | some u => rw [String_of_parse st uri u hne hp, hg u hp]; simp

/-- C5, the scenario: with nothing registered, `"s3://unknownbucket/x.png"`
resolves to itself. -/
theorem String_unregistered_witness :
    BucketURI.String State.init (lit "s3://unknownbucket/x.png") =
      lit "s3://unknownbucket/x.png" :=
  String_unregistered State.init (lit "s3://unknownbucket/x.png") (by decide)
    (fun _ _ => rfl)

/-! ### C6 -/

/-- C6: for a BucketURI that is empty or whitespace-only, `String()` returns the
fallback URL whatever the registry holds: after any sequence of `SetUnknownURI`
and `register` calls since process start that is the argument of the most
recent `SetUnknownURI`, or the built-in default when there was none. -/
theorem String_empty_fallback (calls : List Call) (uri : BucketURI)
    (he : Empty uri = true) :
    BucketURI.String (State.init.run calls) uri =
      lastUnknownURI (lit "http://127.0.0.1:9000/keyue/unknown.png") calls := by
  rw [String_of_empty _ _ he, run_UnknownURI]
  rfl

/-- C6, the scenario: after `SetUnknownURI("http://local/default.png")` (and a
registration), `BucketURI("").String()` is `"http://local/default.png"`. -/
theorem String_empty_fallback_witness :
    BucketURI.String
        (State.init.run [.SetUnknownURI (lit "http://local/default.png"),
          .register (lit "s3") photosStore (lit "cdn.example.com")]) (lit "") =
      lit "http://local/default.png" :=
  String_empty_fallback
    [.SetUnknownURI (lit "http://local/default.png"),
      .register (lit "s3") photosStore (lit "cdn.example.com")] (lit "") (by decide)

/-! ### C7 -/

/-- C7, at the failing input: `NewS3` for the bucket `photos` registers under the
scheme `"s3"` and nothing under `"qiniu"`, but the store's `BucketURI("avatar.png")`
is `"qiniu://photos/avatar.png"`, which the registry does not resolve although
`"s3://photos/avatar.png"` resolves; the Minio and Qiniu adapters issue
references under the scheme their constructors register. -/
theorem S3_BucketURI_wrong_scheme :
    (newS3Photos.1.stores (lit "s3") =
        some [{ Bucket := lit "photos", Host := lit "cdn.example.com",
                store := .s3 newS3Photos.2 }] ∧
      newS3Photos.1.stores (lit "qiniu") = none ∧
      newS3Photos.2.BucketURI (lit "avatar.png") = lit "qiniu://photos/avatar.png" ∧
      BucketURI.String newS3Photos.1 (newS3Photos.2.BucketURI (lit "avatar.png")) =
        lit "qiniu://photos/avatar.png" ∧
      BucketURI.String newS3Photos.1 (lit "s3://photos/avatar.png") =
        lit "http://cdn.example.com/photos/avatar.png") ∧
    (∀ (store : S3ObjectStorage) (key : GoString),
      store.BucketURI key = lit "qiniu" ++ lit "://" ++ store.Bucket ++ lit "/" ++ key) ∧
    (∀ (store : MinioStorage) (key : GoString),
      store.BucketURI key = lit "minio" ++ lit "://" ++ store.Bucket ++ lit "/" ++ key) ∧
    (∀ (store : QiniuStorage) (key : GoString),
      store.BucketURI key = lit "qiniu" ++ lit "://" ++ store.Config.Bucket ++ lit "/" ++ key) :=
  ⟨by decide, fun _ _ => rfl, fun _ _ => rfl, fun _ _ => rfl⟩

/-! ### C8 -/

/-- C8, at the failing input: a successful `NewMinioV2` leaves the registry as
it was, so on the empty registry `GetBucketHost("minio", b)` is not found
afterwards; `NewQiniuStorage` registers the bucket name itself as the host,
whatever `HttpPrefix` is; `NewMinio` and `NewS3` register the store's
`Hostname()` under their scheme and the store's bucket. -/
theorem NewMinioV2_does_not_register :
    (∀ (st : State) (appkey secret bucket : GoString) (opts : List MinioOptionFunc),
      (NewMinioV2 true st appkey secret bucket opts).2.isSome = true ∧
      (NewMinioV2 true st appkey secret bucket opts).1 = st) ∧
    (∀ (appkey secret bucket : GoString) (opts : List MinioOptionFunc),
      GetBucketHost (NewMinioV2 true State.init appkey secret bucket opts).1.stores
        (lit "minio") bucket = ([], false)) ∧
    (∀ cfg : QiniuConfig,
      GetBucketHost (NewQiniuStorage State.init cfg).1.stores (lit "qiniu") cfg.Bucket =
        (cfg.Bucket, true)) ∧
    (∀ (urlString : URL → GoString) (appkey secret bucket : GoString)
        (opts : List MinioOptionFunc) (store : MinioStorage),
      (NewMinio urlString true State.init appkey secret bucket opts).2 = some store →
      GetBucketHost (NewMinio urlString true State.init appkey secret bucket opts).1.stores
        (lit "minio") store.Bucket = (store.Hostname urlString, true)) ∧
    (∀ (website : Option GoString) (appkey secret bucket : GoString)
        (opts : List S3OptionFunc),
      GetBucketHost (NewS3 website State.init appkey secret bucket opts).1.stores
        (lit "s3") (NewS3 website State.init appkey secret bucket opts).2.Bucket =
        ((NewS3 website State.init appkey secret bucket opts).2.Hostname, true)) := by
  refine ⟨fun _ _ _ _ _ => ⟨rfl, rfl⟩, fun _ _ _ _ => rfl, ?_, ?_, ?_⟩
  · intro cfg
    simp [NewQiniuStorage, GetBucketHost, Stores.Load, register_same, State.init,
      Stores.empty, GetBucketHost.scan, Storage.BucketName]
  · intro urlString appkey secret bucket opts store hstore
    simp only [NewMinio, if_true, Option.some.injEq] at hstore
    subst hstore
    simp [NewMinio, GetBucketHost, Stores.Load, register_same, State.init,
      Stores.empty, GetBucketHost.scan, Storage.BucketName, MinioStorage.Hostname]
  · intro website appkey secret bucket opts
    simp [NewS3, GetBucketHost, Stores.Load, register_same, State.init,
      Stores.empty, GetBucketHost.scan, Storage.BucketName]

/-! ### C9 -/

/-- C9: if `GetBucketHost` succeeds for the scheme and bucket of a reference and
its `String()` is `u`, then after any finite sequence of further `register`
calls `String()` still returns `u`. -/
theorem String_stable_under_register (st : State) (uri : BucketURI) (p : URL)
    (u : GoString) (calls : List (GoString × Storage × GoString))
    (hp : url.Parse uri = some p)
    (hg : (GetBucketHost st.stores p.Scheme p.Host).2 = true)
    (hu : BucketURI.String st uri = u) :
    BucketURI.String { st with stores := registerAll st.stores calls } uri = u := by
  rw [← hu]
  apply String_congr
  · rfl
  · intro q hq
    have hpq : q = p := by rw [hp] at hq; exact (Option.some.inj hq).symm
    subst hpq
    exact GetBucketHost_registerAll_of_found calls st.stores q.Scheme q.Host hg

/-- C9, at the scenario: registering `photos` again under `"s3"` with another
host, and `videos`, leaves the resolved URL of `"s3://photos/avatar.png"` as it was. -/
theorem String_stable_under_register_witness :
    BucketURI.String
        { photosState with stores := (registerAll photosState.stores
            [(lit "s3", photosStore, lit "other.example.com"),
             (lit "s3", videosStore, lit "video.example.com")]) }
        (lit "s3://photos/avatar.png") =
      lit "http://cdn.example.com/photos/avatar.png" :=
  String_stable_under_register photosState (lit "s3://photos/avatar.png")
    { Scheme := lit "s3", Host := lit "photos", Path := lit "/avatar.png" }
    (lit "http://cdn.example.com/photos/avatar.png")
    [(lit "s3", photosStore, lit "other.example.com"),
     (lit "s3", videosStore, lit "video.example.com")]
    (by decide) (by decide) (by decide)

/-! ### JSON -/

theorem decodeRunes_go_skip (k : Nat) (l : GoString) :
    decodeRunes.go k l = decodeRunes.go 0 (l.drop k) := by
  induction k generalizing l with
  | zero => rfl
  | succ k ih =>
    cases l with
    | nil => rfl
    | cons a t => simpa [decodeRunes.go] using ih t

theorem unquote_go_skip (k : Nat) (l : GoString) :
    unquote.go k l = unquote.go 0 (l.drop k) := by
  induction k generalizing l with
  | zero => rfl
  | succ k ih =>
    cases l with
    | nil => rfl
    | cons a t => simpa [unquote.go] using ih t

theorem Decode_cases (s0 : Nat) (rest : GoString) :
    (s0 < 0x80 ∧ DecodeRuneInString (s0 :: rest) = (s0, 1)) ∨
    (0x80 ≤ s0 ∧ DecodeRuneInString (s0 :: rest) = (RuneError, 1)) ∨
    (0x80 ≤ s0 ∧ ∃ raw tail r, s0 :: rest = raw ++ tail ∧ 2 ≤ raw.length ∧
      DecodeRuneInString (s0 :: rest) = (r, raw.length) ∧ (∀ b ∈ raw, 0x80 ≤ b) ∧
      utf8Bytes r = raw ∧ ∀ t, DecodeRuneInString (raw ++ t) = (r, raw.length)) := by
  by_cases h0 : s0 < 0x80
  · left; exact ⟨h0, by simp [DecodeRuneInString, h0]⟩
  right
  by_cases h1 : s0 < 0xC2 ∨ 0xF4 < s0
  · left; exact ⟨by omega, by simp [DecodeRuneInString, h0, h1]⟩
  rcases rest with _ | ⟨s1, rest1⟩
  · left; exact ⟨by omega, by simp [DecodeRuneInString, h0, h1]⟩
  by_cases h2 : s1 < (if s0 = 0xE0 then 0xA0 else if s0 = 0xF0 then 0x90 else 0x80) ∨
      (if s0 = 0xED then 0x9F else if s0 = 0xF4 then 0x8F else 0xBF) < s1
  · left; exact ⟨by omega, by simp [DecodeRuneInString, h0, h1, h2]⟩
  have hs1 : 0x80 ≤ s1 ∧ s1 ≤ 0xBF ∧ (s0 = 0xE0 → 0xA0 ≤ s1) ∧ (s0 = 0xF0 → 0x90 ≤ s1) ∧
      (s0 = 0xED → s1 ≤ 0x9F) ∧ (s0 = 0xF4 → s1 ≤ 0x8F) := by
    split_ifs at h2 <;> omega
  by_cases h3 : s0 < 0xE0
  · right
    refine ⟨by omega, [s0, s1], rest1, (s0 - 0xC0) * 64 + (s1 - 0x80), rfl, by simp,
      ?_, ?_, ?_, ?_⟩
    · simp [DecodeRuneInString, h0, h1, h2, h3]
    · intro b hb
      simp only [List.mem_cons, List.mem_singleton, List.not_mem_nil, or_false] at hb
      omega
    · simp only [utf8Bytes]
      split_ifs <;> first | omega | (simp only [List.cons.injEq, and_true]; omega)
    · intro t; simp [DecodeRuneInString, h0, h1, h2, h3]
  rcases rest1 with _ | ⟨s2, rest2⟩
  · left; exact ⟨by omega, by simp [DecodeRuneInString, h0, h1, h2, h3]⟩
  by_cases h4 : isCont s2 = true
  swap
  · left; exact ⟨by omega, by simp [DecodeRuneInString, h0, h1, h2, h3, h4]⟩
  have hs2 : 0x80 ≤ s2 ∧ s2 ≤ 0xBF := by simpa [isCont] using h4
  by_cases h5 : s0 < 0xF0
  · right
    refine ⟨by omega, [s0, s1, s2], rest2,
      (s0 - 0xE0) * 4096 + (s1 - 0x80) * 64 + (s2 - 0x80), rfl, by simp, ?_, ?_, ?_, ?_⟩
    · simp [DecodeRuneInString, h0, h1, h2, h3, h4, h5]
    · intro b hb
      simp only [List.mem_cons, List.mem_singleton, List.not_mem_nil, or_false] at hb
      omega
    · simp only [utf8Bytes]
      split_ifs <;> first | omega | (simp only [List.cons.injEq, and_true]; omega)
    · intro t; simp [DecodeRuneInString, h0, h1, h2, h3, h4, h5]
  rcases rest2 with _ | ⟨s3, rest3⟩
  · left; exact ⟨by omega, by simp [DecodeRuneInString, h0, h1, h2, h3, h4, h5]⟩
  by_cases h6 : isCont s3 = true
  swap
  · left; exact ⟨by omega, by simp [DecodeRuneInString, h0, h1, h2, h3, h4, h5, h6]⟩
  have hs3 : 0x80 ≤ s3 ∧ s3 ≤ 0xBF := by simpa [isCont] using h6
  right
  refine ⟨by omega, [s0, s1, s2, s3], rest3,
    (s0 - 0xF0) * 262144 + (s1 - 0x80) * 4096 + (s2 - 0x80) * 64 + (s3 - 0x80), rfl, by simp,
    ?_, ?_, ?_, ?_⟩
  · simp [DecodeRuneInString, h0, h1, h2, h3, h4, h5, h6]
  · intro b hb
    simp only [List.mem_cons, List.mem_singleton, List.not_mem_nil, or_false] at hb
    omega
  · simp only [utf8Bytes]
    split_ifs <;> first | omega | (simp only [List.cons.injEq, and_true]; omega)
  · intro t; simp [DecodeRuneInString, h0, h1, h2, h3, h4, h5, h6]

theorem hex_spec (n : Nat) (h : n < 16) : ishex (hex n) = true ∧ unhex (hex n) = n := by
  have key : ∀ m < 16, ishex (hex m) = true ∧ unhex (hex m) = m := by decide
  exact key n h

theorem getu4_hex (a b c d : Nat) (R : GoString) (ha : ishex a = true)
    (hb : ishex b = true) (hc : ishex c = true) (hd : ishex d = true) :
    getu4 (0x5C :: 0x75 :: a :: b :: c :: d :: R) =
      some (unhex a * 4096 + unhex b * 256 + unhex c * 16 + unhex d) := by
  simp [getu4, ha, hb, hc, hd]

theorem unquote_u4 (a b c d rr : Nat) (R : GoString)
    (hg : getu4 (0x5C :: 0x75 :: a :: b :: c :: d :: R) = some rr)
    (hns : ¬ (0xD800 ≤ rr ∧ rr < 0xE000)) :
    unquote.go 0 (0x5C :: 0x75 :: a :: b :: c :: d :: R) =
      (unquote.go 0 R).map fun t => utf8Bytes rr ++ t := by
  simp [unquote.go, hg, hns]

theorem unquote_ascii (c : Nat) (hc : c < 0x80) (R : GoString) :
    unquote.go 0 (appendString.rune (c, [c]) ++ R) = (unquote.go 0 R).map fun t => c :: t := by
  simp only [appendString.rune, hc, if_true]
  split_ifs with h1 h2 h3 h4 h5 h6 h7
  · simp only [htmlSafeSet, Bool.and_eq_true, decide_eq_true_eq, bne_iff_ne, ne_eq] at h1
    have e1 : ¬ c = 0x5C := by omega
    have e2 : ¬ (c = 0x22 ∨ c < 0x20) := by omega
    simp [unquote.go, e1, e2, hc]
  · rcases h2 with rfl | rfl <;> simp [unquote.go]
  · subst h3; simp [unquote.go]
  · subst h4; simp [unquote.go]
  · subst h5; simp [unquote.go]
  · subst h6; simp [unquote.go]
  · subst h7; simp [unquote.go]
  · have hh := hex_spec (c / 16) (by omega)
    have hl := hex_spec (c % 16) (by omega)
    have h0 : ishex 0x30 = true ∧ unhex 0x30 = 0 := by decide
    have hg := getu4_hex 0x30 0x30 (hex (c / 16)) (hex (c % 16)) R h0.1 h0.1 hh.1 hl.1
    rw [h0.2, hh.2, hl.2] at hg
    have hval : 0 * 4096 + 0 * 256 + c / 16 * 16 + c % 16 = c := by omega
    rw [hval] at hg
    have := unquote_u4 _ _ _ _ c R hg (by omega)
    simpa [utf8Bytes, hc] using this

theorem unquote_invalid (b : Nat) (hb : 0x80 ≤ b) (R : GoString) :
    unquote.go 0 (appendString.rune (RuneError, [b]) ++ R) =
      (unquote.go 0 R).map fun t => utf8Bytes RuneError ++ t := by
  have hlt : ¬ b < 0x80 := by omega
  have hf : ishex 0x66 = true ∧ unhex 0x66 = 15 := by decide
  have hd : ishex 0x64 = true ∧ unhex 0x64 = 13 := by decide
  have hg := getu4_hex 0x66 0x66 0x66 0x64 R hf.1 hf.1 hf.1 hd.1
  rw [hf.2, hd.2] at hg
  have := unquote_u4 _ _ _ _ _ R hg (by omega)
  simpa [appendString.rune, hlt, RuneError] using this

theorem unquote_multi (r : Nat) (raw R : GoString) (hlen : 2 ≤ raw.length)
    (hhi : ∀ b ∈ raw, 0x80 ≤ b) (hu : utf8Bytes r = raw)
    (hdec : ∀ t, DecodeRuneInString (raw ++ t) = (r, raw.length)) :
    unquote.go 0 (appendString.rune (r, raw) ++ R) =
      (unquote.go 0 R).map fun t => raw ++ t := by
  rcases raw with _ | ⟨a, _ | ⟨b, t⟩⟩
  · simp at hlen
  · simp at hlen
  simp only [appendString.rune]
  split_ifs with h
  · have h2 : ishex 0x32 = true ∧ unhex 0x32 = 2 := by decide
    have h0 : ishex 0x30 = true ∧ unhex 0x30 = 0 := by decide
    have hl := hex_spec (r % 16) (by omega)
    have hg := getu4_hex 0x32 0x30 0x32 (hex (r % 16)) R h2.1 h0.1 h2.1 hl.1
    rw [h2.2, h0.2, hl.2] at hg
    have hval : 2 * 4096 + 0 * 256 + 2 * 16 + r % 16 = r := by omega
    rw [hval] at hg
    have := unquote_u4 _ _ _ _ r R hg (by omega)
    rw [hu] at this
    simpa using this
  · have ha : 0x80 ≤ a := hhi a (List.mem_cons_self _ _)
    have e1 : ¬ a = 0x5C := by omega
    have e2 : ¬ (a = 0x22 ∨ a < 0x20) := by omega
    have e3 : ¬ a < 0x80 := by omega
    have hd := hdec R
    simp only [List.cons_append] at hd
    simp only [List.cons_append]
    simp only [unquote.go, e1, e2, e3, if_false]
    rw [hd, unquote_go_skip, hu]
    simp

theorem decodeRunes_cases (s0 : Nat) (rest : GoString) :
    (s0 < 0x80 ∧ decodeRunes (s0 :: rest) = (s0, [s0]) :: decodeRunes rest) ∨
    (0x80 ≤ s0 ∧ decodeRunes (s0 :: rest) = (RuneError, [s0]) :: decodeRunes rest) ∨
    (∃ raw tail r, s0 :: rest = raw ++ tail ∧ 2 ≤ raw.length ∧ (∀ b ∈ raw, 0x80 ≤ b) ∧
      utf8Bytes r = raw ∧ (∀ t, DecodeRuneInString (raw ++ t) = (r, raw.length)) ∧
      decodeRunes (s0 :: rest) = (r, raw) :: decodeRunes tail) := by
  rcases Decode_cases s0 rest with ⟨h0, hd⟩ | ⟨h0, hd⟩ | ⟨_, raw, tail, r, hs, hlen, hd, hhi, hu, hdec⟩
  · left; exact ⟨h0, by simp [decodeRunes, decodeRunes.go, hd]⟩
  · right; left; exact ⟨h0, by simp [decodeRunes, decodeRunes.go, hd]⟩
  · right; right
    refine ⟨raw, tail, r, hs, hlen, hhi, hu, hdec, ?_⟩
    have hrest : rest = raw.tail ++ tail := by
      rcases raw with _ | ⟨a, t⟩
      · simp at hlen
      · simp only [List.cons_append, List.cons.injEq] at hs
        simp [hs.2]
    simp only [decodeRunes, decodeRunes.go, hd]
    rw [decodeRunes_go_skip, hs, hrest]
    rcases raw with _ | ⟨a, t⟩
    · simp at hlen
    · simp

theorem unquote_body (n : Nat) : ∀ s : GoString, s.length ≤ n →
    unquote.go 0 ((decodeRunes s).map appendString.rune).flatten = some (coerceUTF8 s) := by
  induction n with
  | zero =>
    intro s hs
    have : s = [] := List.length_eq_zero.1 (by omega)
    subst this
    rfl
  | succ n ih =>
    intro s hs
    rcases s with _ | ⟨s0, rest⟩
    · rfl
    have hrest : rest.length ≤ n := by simpa using hs
    rcases decodeRunes_cases s0 rest with ⟨h0, hd⟩ | ⟨h0, hd⟩ |
      ⟨raw, tail, r, hsplit, hlen, hhi, hu, hdec, hd⟩
    · simp only [coerceUTF8, hd, List.map_cons, List.flatten_cons]
      rw [unquote_ascii s0 h0, ih rest hrest]
      have : ¬ (0x80 ≤ s0) := by omega
      simp [coerceUTF8, this]
    · simp only [coerceUTF8, hd, List.map_cons, List.flatten_cons]
      rw [unquote_invalid s0 h0, ih rest hrest]
      simp [coerceUTF8, RuneError]
    · have htail : tail.length ≤ n := by
        have := congrArg List.length hsplit
        simp at this
        omega
      simp only [coerceUTF8, hd, List.map_cons, List.flatten_cons]
      rw [unquote_multi r raw _ hlen hhi hu hdec, ih tail htail]
      have : ¬ (raw.length = 1) := by omega
      simp [coerceUTF8, this]

theorem unquote_quoted (X : GoString) :
    unquote (0x22 :: X ++ [0x22]) = unquote.go 0 X := by
  have h1 : ¬ ((0x22 :: X ++ [0x22]).length < 2 ∨ (0x22 :: X ++ [0x22]).head? ≠ some 0x22 ∨
      (0x22 :: X ++ [0x22]).getLast? ≠ some 0x22) := by
    have hl : (0x22 :: X ++ [0x22]).getLast? = some 0x22 := List.getLast?_concat _
    rw [hl]
    simp
  unfold unquote
  rw [if_neg h1]
  simp

theorem unquote_appendString (s : GoString) :
    unquote (appendString s) = some (coerceUTF8 s) := by
  unfold appendString
  rw [unquote_quoted]
  exact unquote_body s.length s (le_refl _)

theorem coerceUTF8_of_valid (n : Nat) : ∀ s : GoString, s.length ≤ n →
    ValidString s = true → coerceUTF8 s = s := by
  induction n with
  | zero =>
    intro s hs _
    have : s = [] := List.length_eq_zero.1 (by omega)
    subst this
    rfl
  | succ n ih =>
    intro s hs hv
    rcases s with _ | ⟨s0, rest⟩
    · rfl
    have hrest : rest.length ≤ n := by simpa using hs
    rcases decodeRunes_cases s0 rest with ⟨h0, hd⟩ | ⟨h0, hd⟩ |
      ⟨raw, tail, r, hsplit, hlen, hhi, hu, hdec, hd⟩
    · have hv2 : ValidString rest = true := by
        simp only [ValidString, hd, List.all_cons, Bool.and_eq_true] at hv
        exact hv.2
      have : ¬ (0x80 ≤ s0) := by omega
      simp only [coerceUTF8, hd, List.map_cons, List.flatten_cons]
      have ih2 := ih rest hrest hv2
      simp only [coerceUTF8] at ih2
      rw [ih2]
      simp [this]
    · simp [ValidString, hd, RuneError] at hv
    · have htail : tail.length ≤ n := by
        have := congrArg List.length hsplit
        simp at this
        omega
      have hv2 : ValidString tail = true := by
        simp only [ValidString, hd, List.all_cons, Bool.and_eq_true] at hv
        exact hv.2
      have : ¬ (raw.length = 1) := by omega
      simp only [coerceUTF8, hd, List.map_cons, List.flatten_cons]
      have ih2 := ih tail htail hv2
      simp only [coerceUTF8] at ih2
      rw [ih2, hsplit]
      simp [this]

/-! ### C10 -/

/-- C10, refuted: with `("s3", "photos", "cdn.example.com")` registered, the
reference `"s3://photos/%ff.png"` resolves to a URL holding the byte `0xFF`, which
differs from the raw value; `MarshalJSON` writes that byte as the escape for U+FFFD, so the
serialized form decodes to a string with U+FFFD in its place and not to
`String()`'s output. -/
theorem MarshalJSON_not_roundtrip :
    BucketURI.String photosState (lit "s3://photos/%ff.png") =
      lit "http://cdn.example.com/photos/" ++ [0xFF] ++ lit ".png" ∧
    BucketURI.String photosState (lit "s3://photos/%ff.png") ≠ lit "s3://photos/%ff.png" ∧
    BucketURI.MarshalJSON photosState (lit "s3://photos/%ff.png") =
      (lit "\"http://cdn.example.com/photos/\\ufffd.png\"", none) ∧
    unquote (BucketURI.MarshalJSON photosState (lit "s3://photos/%ff.png")).1 =
      some (lit "http://cdn.example.com/photos/" ++ [0xEF, 0xBF, 0xBD] ++ lit ".png") ∧
    unquote (BucketURI.MarshalJSON photosState (lit "s3://photos/%ff.png")).1 ≠
      some (BucketURI.String photosState (lit "s3://photos/%ff.png")) := by
  decide

/-- C10, amended: for every BucketURI value `MarshalJSON` returns a nil error
and its output is `json.Marshal` of `String()`'s output, not of the raw value; the
serialized form decodes to `String()`'s output with every byte that is not part
of a valid UTF-8 encoding replaced by U+FFFD, hence to `String()`'s output itself
whenever that is valid UTF-8, and then not to the raw value when the two
differ. -/
theorem MarshalJSON_spec (st : State) (uri : BucketURI) :
    BucketURI.MarshalJSON st uri = json.Marshal (BucketURI.String st uri) ∧
    (BucketURI.MarshalJSON st uri).2 = none ∧
    unquote (BucketURI.MarshalJSON st uri).1 = some (coerceUTF8 (BucketURI.String st uri)) ∧
    (ValidString (BucketURI.String st uri) = true →
      unquote (BucketURI.MarshalJSON st uri).1 = some (BucketURI.String st uri) ∧
      (BucketURI.String st uri ≠ uri →
        unquote (BucketURI.MarshalJSON st uri).1 ≠ some uri)) := by
  have hdec : unquote (BucketURI.MarshalJSON st uri).1 =
      some (coerceUTF8 (BucketURI.String st uri)) :=
    unquote_appendString (BucketURI.String st uri)
  refine ⟨rfl, rfl, hdec, fun hv => ?_⟩
  have hval := coerceUTF8_of_valid _ (BucketURI.String st uri) (le_refl _) hv
  rw [hval] at hdec
  refine ⟨hdec, fun hne h => ?_⟩
  rw [hdec] at h
  exact hne (Option.some.inj h)

/-- C10, amended, at the scenario: the serialized form of `"s3://photos/avatar.png"`
decodes to the resolved URL. -/
theorem MarshalJSON_spec_witness :
    unquote (BucketURI.MarshalJSON photosState (lit "s3://photos/avatar.png")).1 =
      some (lit "http://cdn.example.com/photos/avatar.png") :=
  (((MarshalJSON_spec photosState (lit "s3://photos/avatar.png")).2.2.2 (by decide)).1).trans
    (by decide)

/-! ### C15 -/

/-- C15: after `register(s, store, h)` with `store.BucketName() = b`, the entry
list of `s` is the previous list (empty if `s` was absent) with the one entry
for `b` and `h` appended at the end, every other scheme's list is unchanged,
and `GetBucketHost(s, b)` reports found; the host it returns is `h` when no entry
for `b` existed under `s` before the call, and otherwise the host of the earliest
entry for `b`, which is what the lookup returned before the call. -/
theorem register_appends_entry (stores : Stores) (s : GoString) (store : Storage)
    (h : GoString) :
    (register stores s store h).Load s =
        some ((stores.Load s).getD [] ++
          [{ Bucket := store.BucketName, Host := h, store := store }]) ∧
    (∀ k, k ≠ s → (register stores s store h).Load k = stores.Load k) ∧
    (GetBucketHost (register stores s store h) s store.BucketName).2 = true ∧
    ((∀ st ∈ (stores.Load s).getD [], st.Bucket ≠ store.BucketName) →
      GetBucketHost (register stores s store h) s store.BucketName = (h, true)) ∧
    (∀ pre post st, (stores.Load s).getD [] = pre ++ st :: post →
      (∀ x ∈ pre, x.Bucket ≠ store.BucketName) → st.Bucket = store.BucketName →
      GetBucketHost stores s store.BucketName = (st.Host, true) ∧
      GetBucketHost (register stores s store h) s store.BucketName = (st.Host, true)) := by
  have hreg := register_same stores s store h
  refine ⟨hreg, fun k hk => register_other _ _ _ _ _ hk, ?_, ?_, ?_⟩
  · unfold GetBucketHost Stores.Load
    rw [hreg]
    exact (scan_found_iff _ _).2
      ⟨{ Bucket := store.BucketName, Host := h, store := store }, by simp, rfl⟩
  · intro hno
    unfold GetBucketHost Stores.Load
    rw [hreg]
    exact scan_first _ _ [] _ hno rfl
  · intro pre post st hsplit hpre hst
    have hold : GetBucketHost stores s store.BucketName = (st.Host, true) := by
      unfold GetBucketHost Stores.Load
      cases hl : stores s with
      | none => simp [Stores.Load, hl] at hsplit
      | some l =>
        have : l = pre ++ st :: post := by simpa [Stores.Load, hl] using hsplit
        rw [this]
        exact scan_first _ pre post st hpre hst
    refine ⟨hold, ?_⟩
    rw [GetBucketHost_register_of_found _ _ _ _ _ _ (by rw [hold]), hold]

/-- C15, at the scenario: `photos` registered a second time under `"s3"` with
another host is appended after the first entry, and the lookup still returns
the first host. -/
theorem register_appends_entry_witness :
    (register photosState.stores (lit "s3") photosStore (lit "other.example.com")).Load
        (lit "s3") =
      some ([{ Bucket := lit "photos", Host := lit "cdn.example.com", store := photosStore }] ++
        [{ Bucket := photosStore.BucketName, Host := lit "other.example.com",
           store := photosStore }]) ∧
    GetBucketHost (register photosState.stores (lit "s3") photosStore (lit "other.example.com"))
        (lit "s3") photosStore.BucketName = (lit "cdn.example.com", true) :=
  ⟨(register_appends_entry photosState.stores (lit "s3") photosStore
      (lit "other.example.com")).1.trans (by decide),
    ((register_appends_entry photosState.stores (lit "s3") photosStore
      (lit "other.example.com")).2.2.2.2 []
      [] { Bucket := lit "photos", Host := lit "cdn.example.com", store := photosStore }
      (by decide) (by decide) (by decide)).2⟩

/-! ### C11 -/

/-- C11, refuted: on the Qiniu adapter a `Put` of `"hello.txt"` succeeds and the
`Get` of the same key that follows fails with "not implemented". -/
theorem Qiniu_Put_then_Get_fails :
    (QiniuStorage.Put { Config := { Bucket := lit "photos" } } Objects.empty none
        (lit "hello.txt") (lit "hello world")).2 = none ∧
    QiniuStorage.Get { Config := { Bucket := lit "photos" } }
        (QiniuStorage.Put { Config := { Bucket := lit "photos" } } Objects.empty none
          (lit "hello.txt") (lit "hello world")).1 (lit "hello.txt") =
      (none, some (lit "not implemented")) := by
  exact ⟨rfl, rfl⟩

/-- C11, amended: on the S3 adapter, if `Put(key, v)` succeeds then `Get(key)`
succeeds and returns `v`; on the Minio adapter, if `Put(key, v)` succeeds then
`Get` of the key without its one leading `/` (the key itself when it has none),
where what is left does not start with `/`, succeeds and returns `v`; `Get` on
the Qiniu adapter always fails with "not implemented". -/
theorem Put_then_Get (objects : Objects) (key : GoString) (v : List Nat)
    (sdkErr : Option GoString) :
    (∀ store : S3ObjectStorage, (store.Put objects sdkErr key v).2 = none →
      store.Get (store.Put objects sdkErr key v).1 key = (some v, none)) ∧
    (∀ store : MinioStorage, (lit "/").isPrefixOf (TrimPrefix key (lit "/")) = false →
      (store.Put objects sdkErr key v).2 = none →
      store.Get (store.Put objects sdkErr key v).1 (TrimPrefix key (lit "/")) =
        (some v, none)) ∧
    (∀ store : MinioStorage, (lit "/").isPrefixOf key = false →
      (store.Put objects sdkErr key v).2 = none →
      store.Get (store.Put objects sdkErr key v).1 key = (some v, none)) ∧
    (∀ qiniu : QiniuStorage,
      qiniu.Get (qiniu.Put objects sdkErr key v).1 key = (none, some (lit "not implemented"))) := by
  refine ⟨?_, ?_, ?_, fun _ => rfl⟩
  · intro store h
    cases sdkErr with
    | some e => simp [S3ObjectStorage.Put] at h
    | none => simp [S3ObjectStorage.Put, S3ObjectStorage.Get, Objects.put]
  · intro store _ h
    cases sdkErr with
    | some e => simp [MinioStorage.Put] at h
    | none => simp [MinioStorage.Put, MinioStorage.Get, Objects.put]
  · intro store hk h
    cases sdkErr with
    | some e => simp [MinioStorage.Put] at h
    | none => simp [MinioStorage.Put, MinioStorage.Get, Objects.put, TrimPrefix, hk]

/-- C11, amended, at the test's scenario: on the Minio adapter `Put("/hello.txt")`
followed by `Get("hello.txt")` returns the bytes written. -/
theorem Put_then_Get_witness :
    MinioStorage.Get { Bucket := lit "photos" }
        (MinioStorage.Put { Bucket := lit "photos" } Objects.empty none (lit "/hello.txt")
          (lit "hello world")).1 (lit "hello.txt") =
      (some (lit "hello world"), none) :=
  ((Put_then_Get Objects.empty (lit "/hello.txt") (lit "hello world") none).2.1
    { Bucket := lit "photos" } (by decide) rfl).trans (by decide)

/-! ### C14 -/

theorem step_register (stores : Stores) (s : GoString) (store : Storage) (h : GoString) :
    (((Goroutine.call s store h).step stores).2.step
      ((Goroutine.call s store h).step stores).1) = (register stores s store h, .returned) := by
  cases hs : stores s <;> simp [Goroutine.step, register, Stores.LoadOrStore, hs]

theorem GetBucketHost_congr (m m2 : Stores) (scheme bucket : GoString)
    (h : m2 scheme = m scheme) :
    GetBucketHost m2 scheme bucket = GetBucketHost m scheme bucket := by
  unfold GetBucketHost Stores.Load
  rw [h]

theorem runSchedule_stepsLeft (sched : List Nat) :
    ∀ (stores : Stores) (gs : List Goroutine) (i : Nat) (g : Goroutine), gs[i]? = some g →
      ∃ g2, (runSchedule stores gs sched).2[i]? = some g2 ∧
        g2.stepsLeft ≤ g.stepsLeft - sched.count i := by
  induction sched with
  | nil => intro stores gs i g hg; exact ⟨g, hg, by simp⟩
  | cons j rest ih =>
    intro stores gs i g hg
    unfold runSchedule
    cases hj : gs[j]? with
    | none =>
      have hne : j ≠ i := by rintro rfl; rw [hg] at hj; cases hj
      obtain ⟨g2, h1, h2⟩ := ih stores gs i g hg
      refine ⟨g2, h1, ?_⟩
      rw [List.count_cons]
      simp [hne, h2]
    | some gj =>
      by_cases hji : j = i
      · subst hji
        have hgj : gj = g := by rw [hg] at hj; exact (Option.some.inj hj).symm
        subst hgj
        have hlt : j < gs.length := by
          by_contra hcon
          rw [List.getElem?_eq_none (by omega)] at hg
          cases hg
        have hset : (gs.set j (gj.step stores).2)[j]? = some (gj.step stores).2 := by
          rw [List.getElem?_set]; simp [hlt]
        obtain ⟨g2, h1, h2⟩ := ih (gj.step stores).1 _ j _ hset
        refine ⟨g2, h1, ?_⟩
        have hstep : (gj.step stores).2.stepsLeft ≤ gj.stepsLeft - 1 := by
          cases gj with
          | call s st h =>
            cases hs : stores s <;>
              simp [Goroutine.step, Stores.LoadOrStore, hs, Goroutine.stepsLeft]
          | loaded s o t => simp [Goroutine.step, Goroutine.stepsLeft]
          | returned => simp [Goroutine.step, Goroutine.stepsLeft]
        rw [List.count_cons]
        simp only [beq_self_eq_true, if_true]
        omega
      · have hset : (gs.set j (gj.step stores).2)[i]? = some g := by
          rw [List.getElem?_set_ne hji]; exact hg
        obtain ⟨g2, h1, h2⟩ := ih (gj.step stores).1 _ i g hset
        refine ⟨g2, h1, ?_⟩
        rw [List.count_cons]
        simp [hji, h2]

theorem registerInv_step (calls : List (GoString × Storage × GoString))
    (hd : (calls.map fun c => c.1).Nodup) (stores : Stores) (gs : List Goroutine)
    (hinv : registerInv calls stores gs) (j : Nat) (gj : Goroutine) (hj : gs[j]? = some gj) :
    registerInv calls (gj.step stores).1 (gs.set j (gj.step stores).2) := by
  obtain ⟨hlen, hinv⟩ := hinv
  have hlt : j < gs.length := by
    by_contra hcon
    rw [List.getElem?_eq_none (by omega)] at hj
    cases hj
  have hsetj : (gs.set j (gj.step stores).2)[j]? = some (gj.step stores).2 := by
    rw [List.getElem?_set]; simp [hlt]
  refine ⟨by simpa using hlen, ?_⟩
  intro i c hc
  by_cases hji : j = i
  · subst hji
    rw [hsetj]
    rcases hinv j c hc with h | ⟨olds, h, hst⟩ | ⟨h, hf⟩
    · have : gj = .call c.1 c.2.1 c.2.2 := by rw [hj] at h; exact Option.some.inj h
      subst this
      cases hs : stores c.1 with
      | none =>
        right; right
        refine ⟨by simp [Goroutine.step, Stores.LoadOrStore, hs], ?_⟩
        simp [Goroutine.step, Stores.LoadOrStore, hs, GetBucketHost, Stores.Load,
          Stores.Store, GetBucketHost.scan]
      | some olds =>
        right; left
        refine ⟨olds, ?_, ?_⟩
        · simp [Goroutine.step, Stores.LoadOrStore, hs]
        · simp [Goroutine.step, Stores.LoadOrStore, hs]
    · have : gj = .loaded c.1 olds
          [{ Bucket := c.2.1.BucketName, Host := c.2.2, store := c.2.1 }] := by
        rw [hj] at h; exact Option.some.inj h
      subst this
      right; right
      refine ⟨rfl, ?_⟩
      simp only [Goroutine.step, GetBucketHost, Stores.Load, Stores.Store, if_true]
      exact (scan_found_iff _ _).2
        ⟨{ Bucket := c.2.1.BucketName, Host := c.2.2, store := c.2.1 }, by simp, rfl⟩
    · have : gj = .returned := by rw [hj] at h; exact Option.some.inj h
      subst this
      right; right
      exact ⟨rfl, hf⟩
  · rw [List.getElem?_set_ne hji]
    -- the step of goroutine `j` writes only under the scheme of call `j`
    have hother : ((gj.step stores).1) c.1 = stores c.1 := by
      have hjc : j < calls.length := by omega
      have hcj : calls[j]? = some calls[j] := List.getElem?_eq_getElem hjc
      have hic : i < calls.length := by
        by_contra hcon
        rw [List.getElem?_eq_none (by omega)] at hc
        cases hc
      have hci : calls[i] = c := by
        rw [List.getElem?_eq_getElem hic] at hc; exact Option.some.inj hc
      have hne : calls[j].1 ≠ c.1 := by
        intro heq
        have hjm : j < (calls.map fun c => c.1).length := by simpa using hjc
        have him : i < (calls.map fun c => c.1).length := by simpa using hic
        have h1 : (calls.map fun c => c.1)[j] = (calls.map fun c => c.1)[i] := by
          simp [heq, hci]
        exact hji ((List.Nodup.getElem_inj_iff hd).1 h1)
      rcases hinv j calls[j] hcj with h | ⟨olds, h, _⟩ | ⟨h, _⟩
      · have : gj = .call calls[j].1 calls[j].2.1 calls[j].2.2 := by
          rw [hj] at h; exact Option.some.inj h
        subst this
        cases hs : stores calls[j].1 with
        | none => simp [Goroutine.step, Stores.LoadOrStore, hs, Stores.Store, Ne.symm hne]
        | some o => simp [Goroutine.step, Stores.LoadOrStore, hs]
      · have : gj = .loaded calls[j].1 olds
            [{ Bucket := calls[j].2.1.BucketName, Host := calls[j].2.2,
               store := calls[j].2.1 }] := by
          rw [hj] at h; exact Option.some.inj h
        subst this
        simp [Goroutine.step, Stores.Store, Ne.symm hne]
      · have : gj = .returned := by rw [hj] at h; exact Option.some.inj h
        subst this
        rfl
    rcases hinv i c hc with h | ⟨olds, h, hst⟩ | ⟨h, hf⟩
    · exact Or.inl h
    · exact Or.inr (Or.inl ⟨olds, h, by rw [hother]; exact hst⟩)
    · exact Or.inr (Or.inr ⟨h, by rw [GetBucketHost_congr _ _ _ _ hother]; exact hf⟩)

theorem registerInv_run (calls : List (GoString × Storage × GoString))
    (hd : (calls.map fun c => c.1).Nodup) (sched : List Nat) :
    ∀ (stores : Stores) (gs : List Goroutine), registerInv calls stores gs →
      registerInv calls (runSchedule stores gs sched).1 (runSchedule stores gs sched).2 := by
  induction sched with
  | nil => intro stores gs h; exact h
  | cons j rest ih =>
    intro stores gs h
    unfold runSchedule
    cases hj : gs[j]? with
    | none => exact ih stores gs h
    | some gj => exact ih _ _ (registerInv_step calls hd stores gs h j gj hj)

theorem registerInv_spawn (calls : List (GoString × Storage × GoString)) (stores : Stores) :
    registerInv calls stores (spawn calls) := by
  refine ⟨by simp [spawn], fun i c hc => Or.inl ?_⟩
  simp [spawn, hc]

/-- C14: for `register` calls with pairwise distinct scheme names running
concurrently, under every schedule of their atomic map operations (a
`LoadOrStore`, then a `Store` when the key was loaded): every call returns once
it has been scheduled twice, and the bucket of every call that has returned is
found by `GetBucketHost` under its scheme.  A call scheduled alone does what
`register` does. -/
theorem concurrent_register (stores : Stores) (calls : List (GoString × Storage × GoString))
    (sched : List Nat) (hd : (calls.map fun c => c.1).Nodup) :
    (∀ (m : Stores) (s : GoString) (store : Storage) (h : GoString),
      ((Goroutine.call s store h).step m).2.step ((Goroutine.call s store h).step m).1 =
        (register m s store h, Goroutine.returned)) ∧
    (∀ (i : Nat) (c : GoString × Storage × GoString), calls[i]? = some c →
      2 ≤ sched.count i →
      (runSchedule stores (spawn calls) sched).2[i]? = some Goroutine.returned) ∧
    (∀ (i : Nat) (c : GoString × Storage × GoString), calls[i]? = some c →
      (runSchedule stores (spawn calls) sched).2[i]? = some Goroutine.returned →
      (GetBucketHost (runSchedule stores (spawn calls) sched).1 c.1 c.2.1.BucketName).2 =
        true) := by
  refine ⟨step_register, ?_, ?_⟩
  · intro i c hc hcount
    have hspawn : (spawn calls)[i]? = some (Goroutine.call c.1 c.2.1 c.2.2) := by
      simp [spawn, hc]
    obtain ⟨g2, h1, h2⟩ := runSchedule_stepsLeft sched stores (spawn calls) i _ hspawn
    rw [h1]
    cases g2 with
    | call s st h => simp [Goroutine.stepsLeft] at h2; omega
    | loaded s o t => simp [Goroutine.stepsLeft] at h2; omega
    | returned => rfl
  · intro i c hc hret
    have hinv := registerInv_run calls hd sched stores (spawn calls)
      (registerInv_spawn calls stores)
    rcases hinv.2 i c hc with h | ⟨olds, h, _⟩ | ⟨_, hf⟩
    · rw [hret] at h; cases h
    · rw [hret] at h; cases h
    · exact hf

/-- C14, at a scenario: with `photos` already registered under `"s3"`, the calls
for `("s3", videos)` and `("minio", media)` interleaved step by step both
return, and both buckets are found. -/
theorem concurrent_register_witness :
    (GetBucketHost (runSchedule photosState.stores (spawn twoCalls) [0, 1, 1, 0]).1
        (lit "s3") (lit "videos")).2 = true ∧
    (GetBucketHost (runSchedule photosState.stores (spawn twoCalls) [0, 1, 1, 0]).1
        (lit "minio") (lit "media")).2 = true :=
  ⟨(concurrent_register photosState.stores twoCalls [0, 1, 1, 0] (by decide)).2.2 0
      (lit "s3", videosStore, lit "video.example.com") rfl
      ((concurrent_register photosState.stores twoCalls [0, 1, 1, 0] (by decide)).2.1 0
        (lit "s3", videosStore, lit "video.example.com") rfl (by decide)),
    (concurrent_register photosState.stores twoCalls [0, 1, 1, 0] (by decide)).2.2 1
      (lit "minio", .minio { Bucket := lit "media" }, lit "media.example.com") rfl
      ((concurrent_register photosState.stores twoCalls [0, 1, 1, 0] (by decide)).2.1 1
        (lit "minio", .minio { Bucket := lit "media" }, lit "media.example.com") rfl
        (by decide))⟩

/-! ### `IsPrivateIP` -/

theorem privateIPBlocks_eq : privateIPBlocks = some [
    { IP := [127, 0, 0, 0], Mask := [255, 0, 0, 0] },
    { IP := [10, 0, 0, 0], Mask := [255, 0, 0, 0] },
    { IP := [172, 16, 0, 0], Mask := [255, 240, 0, 0] },
    { IP := [192, 168, 0, 0], Mask := [255, 255, 0, 0] },
    { IP := [169, 254, 0, 0], Mask := [255, 255, 0, 0] },
    { IP := [0, 0, 0, 0, 0, 0, 0, 0, 0, 0, 0, 0, 0, 0, 0, 1],
      Mask := [255, 255, 255, 255, 255, 255, 255, 255, 255, 255, 255, 255, 255, 255, 255, 255] },
    { IP := [0xfe, 0x80, 0, 0, 0, 0, 0, 0, 0, 0, 0, 0, 0, 0, 0, 0],
      Mask := [255, 0xc0, 0, 0, 0, 0, 0, 0, 0, 0, 0, 0, 0, 0, 0, 0] },
    { IP := [0xfc, 0, 0, 0, 0, 0, 0, 0, 0, 0, 0, 0, 0, 0, 0, 0],
      Mask := [0xfe, 0, 0, 0, 0, 0, 0, 0, 0, 0, 0, 0, 0, 0, 0, 0] }] := by
  decide

theorem availableIPBlocks_isSome : availableIPBlocks.isSome = true := by decide

set_option maxRecDepth 100000 in
theorem land_byte (b : Nat) (h : b < 256) :
    b &&& 255 = b ∧ (b &&& 240 = 16 ↔ 16 ≤ b ∧ b ≤ 31) ∧
      (b &&& 0xc0 = 0x80 ↔ 0x80 ≤ b ∧ b ≤ 0xbf) ∧ (b &&& 0xfe = 0xfc ↔ b = 0xfc ∨ b = 0xfd) ∧
      (b &&& 0x0f = 0x02 ↔ b % 16 = 2) := by
  have key : ∀ c < 256, c &&& 255 = c ∧ (c &&& 240 = 16 ↔ 16 ≤ c ∧ c ≤ 31) ∧
      (c &&& 0xc0 = 0x80 ↔ 0x80 ≤ c ∧ c ≤ 0xbf) ∧ (c &&& 0xfe = 0xfc ↔ c = 0xfc ∨ c = 0xfd) ∧
      (c &&& 0x0f = 0x02 ↔ c % 16 = 2) := by
    decide
  exact key b h

theorem Contains_loop_range' (nn m ip : List Nat) :
    ∀ (n k : Nat), nn.length = k + n → m.length = k + n → ip.length = k + n →
      IPNet.Contains.loop nn m ip (List.range' k n) =
        some (decide (List.zipWith (fun a b => a &&& b) (nn.drop k) (m.drop k) =
          List.zipWith (fun a b => a &&& b) (ip.drop k) (m.drop k))) := by
  intro n
  induction n with
  | zero =>
    intro k h1 h2 h3
    simp [IPNet.Contains.loop, List.drop_of_length_le, h1, h2, h3]
  | succ n ih =>
    intro k h1 h2 h3
    have hk1 : k < nn.length := by omega
    have hk2 : k < m.length := by omega
    have hk3 : k < ip.length := by omega
    rw [List.range'_succ, IPNet.Contains.loop, List.getElem?_eq_getElem hk1,
      List.getElem?_eq_getElem hk2, List.getElem?_eq_getElem hk3]
    simp only [Option.some_bind]
    rw [ih (k + 1) (by omega) (by omega) (by omega)]
    rw [List.drop_eq_getElem_cons hk1, List.drop_eq_getElem_cons hk2,
      List.drop_eq_getElem_cons hk3]
    by_cases hne : nn[k] &&& m[k] = ip[k] &&& m[k]
    · rw [if_neg (not_not.2 hne)]
      simp only [List.zipWith_cons_cons, List.cons.injEq, hne, true_and]
    · rw [if_pos hne]
      simp only [List.zipWith_cons_cons, List.cons.injEq, hne, false_and, decide_False]

theorem Contains_of (n : IPNet) (ip x nn m : List Nat)
    (hx : (match IP.To4 ip with
      | some x => x
      | none => ip) = x)
    (hn : networkNumberAndMask n = (nn, m)) (hm : m.length = nn.length) :
    n.Contains ip = some (decide (x.length = nn.length ∧
      List.zipWith (fun a b => a &&& b) nn m = List.zipWith (fun a b => a &&& b) x m)) := by
  unfold IPNet.Contains
  simp only [hx, hn]
  by_cases hl : x.length = nn.length
  · rw [if_neg (not_not.2 hl), List.range_eq_range',
      Contains_loop_range' nn m x x.length 0 (by omega) (by omega) (by omega)]
    simp [hl]
  · rw [if_pos hl]
    simp [hl]

theorem loop_v4 (ip : List Nat) (a b c d : Nat) (hto4 : IP.To4 ip = some [a, b, c, d])
    (ha : a < 256) (hb : b < 256) :
    IsPrivateIP.loop ip [
      { IP := [127, 0, 0, 0], Mask := [255, 0, 0, 0] },
      { IP := [10, 0, 0, 0], Mask := [255, 0, 0, 0] },
      { IP := [172, 16, 0, 0], Mask := [255, 240, 0, 0] },
      { IP := [192, 168, 0, 0], Mask := [255, 255, 0, 0] },
      { IP := [169, 254, 0, 0], Mask := [255, 255, 0, 0] },
      { IP := [0, 0, 0, 0, 0, 0, 0, 0, 0, 0, 0, 0, 0, 0, 0, 1],
        Mask := [255, 255, 255, 255, 255, 255, 255, 255, 255, 255, 255, 255, 255, 255, 255, 255] },
      { IP := [0xfe, 0x80, 0, 0, 0, 0, 0, 0, 0, 0, 0, 0, 0, 0, 0, 0],
        Mask := [255, 0xc0, 0, 0, 0, 0, 0, 0, 0, 0, 0, 0, 0, 0, 0, 0] },
      { IP := [0xfc, 0, 0, 0, 0, 0, 0, 0, 0, 0, 0, 0, 0, 0, 0, 0],
        Mask := [0xfe, 0, 0, 0, 0, 0, 0, 0, 0, 0, 0, 0, 0, 0, 0, 0] }] =
      some (decide (a = 127 ∨ a = 10 ∨ (a = 172 ∧ 16 ≤ b ∧ b ≤ 31) ∨ (a = 192 ∧ b = 168) ∨
        (a = 169 ∧ b = 254))) := by
  have hx : (match IP.To4 ip with
      | some x => x
      | none => ip) = [a, b, c, d] := by rw [hto4]
  have la := land_byte a ha
  have lb := land_byte b hb
  simp only [IsPrivateIP.loop]
  rw [Contains_of _ ip _ _ _ hx
        (by decide : networkNumberAndMask _ = ([127, 0, 0, 0], [255, 0, 0, 0])) rfl,
    Contains_of _ ip _ _ _ hx
        (by decide : networkNumberAndMask _ = ([10, 0, 0, 0], [255, 0, 0, 0])) rfl,
    Contains_of _ ip _ _ _ hx
        (by decide : networkNumberAndMask _ = ([172, 16, 0, 0], [255, 240, 0, 0])) rfl,
    Contains_of _ ip _ _ _ hx
        (by decide : networkNumberAndMask _ = ([192, 168, 0, 0], [255, 255, 0, 0])) rfl,
    Contains_of _ ip _ _ _ hx
        (by decide : networkNumberAndMask _ = ([169, 254, 0, 0], [255, 255, 0, 0])) rfl,
    Contains_of _ ip _ _ _ hx
        (by decide : networkNumberAndMask _ =
          ([0, 0, 0, 0, 0, 0, 0, 0, 0, 0, 0, 0, 0, 0, 0, 1],
           [255, 255, 255, 255, 255, 255, 255, 255, 255, 255, 255, 255, 255, 255, 255, 255]))
        rfl,
    Contains_of _ ip _ _ _ hx
        (by decide : networkNumberAndMask _ =
          ([0xfe, 0x80, 0, 0, 0, 0, 0, 0, 0, 0, 0, 0, 0, 0, 0, 0],
           [255, 0xc0, 0, 0, 0, 0, 0, 0, 0, 0, 0, 0, 0, 0, 0, 0])) rfl,
    Contains_of _ ip _ _ _ hx
        (by decide : networkNumberAndMask _ =
          ([0xfc, 0, 0, 0, 0, 0, 0, 0, 0, 0, 0, 0, 0, 0, 0, 0],
           [0xfe, 0, 0, 0, 0, 0, 0, 0, 0, 0, 0, 0, 0, 0, 0, 0])) rfl]
  have hb240 : (16 = b &&& 240) ↔ (16 ≤ b ∧ b ≤ 31) := by rw [eq_comm]; exact lb.2.1
  simp [la.1, lb.1]
  simp only [show (127 &&& 255 : Nat) = 127 from by decide,
    show (10 &&& 255 : Nat) = 10 from by decide, show (172 &&& 255 : Nat) = 172 from by decide,
    show (192 &&& 255 : Nat) = 192 from by decide, show (168 &&& 255 : Nat) = 168 from by decide,
    show (169 &&& 255 : Nat) = 169 from by decide, show (254 &&& 255 : Nat) = 254 from by decide,
    show (16 &&& 240 : Nat) = 16 from by decide, hb240]
  split_ifs <;> simp <;> omega

theorem loop_other (ip : List Nat) (hto4 : IP.To4 ip = none) (h4 : ip.length ≠ 4)
    (h16 : ip.length ≠ 16) :
    IsPrivateIP.loop ip [
      { IP := [127, 0, 0, 0], Mask := [255, 0, 0, 0] },
      { IP := [10, 0, 0, 0], Mask := [255, 0, 0, 0] },
      { IP := [172, 16, 0, 0], Mask := [255, 240, 0, 0] },
      { IP := [192, 168, 0, 0], Mask := [255, 255, 0, 0] },
      { IP := [169, 254, 0, 0], Mask := [255, 255, 0, 0] },
      { IP := [0, 0, 0, 0, 0, 0, 0, 0, 0, 0, 0, 0, 0, 0, 0, 1],
        Mask := [255, 255, 255, 255, 255, 255, 255, 255, 255, 255, 255, 255, 255, 255, 255, 255] },
      { IP := [0xfe, 0x80, 0, 0, 0, 0, 0, 0, 0, 0, 0, 0, 0, 0, 0, 0],
        Mask := [255, 0xc0, 0, 0, 0, 0, 0, 0, 0, 0, 0, 0, 0, 0, 0, 0] },
      { IP := [0xfc, 0, 0, 0, 0, 0, 0, 0, 0, 0, 0, 0, 0, 0, 0, 0],
        Mask := [0xfe, 0, 0, 0, 0, 0, 0, 0, 0, 0, 0, 0, 0, 0, 0, 0] }] = some false := by
  have hx : (match IP.To4 ip with
      | some x => x
      | none => ip) = ip := by rw [hto4]
  simp only [IsPrivateIP.loop]
  rw [Contains_of _ ip _ _ _ hx
        (by decide : networkNumberAndMask _ = ([127, 0, 0, 0], [255, 0, 0, 0])) rfl,
    Contains_of _ ip _ _ _ hx
        (by decide : networkNumberAndMask _ = ([10, 0, 0, 0], [255, 0, 0, 0])) rfl,
    Contains_of _ ip _ _ _ hx
        (by decide : networkNumberAndMask _ = ([172, 16, 0, 0], [255, 240, 0, 0])) rfl,
    Contains_of _ ip _ _ _ hx
        (by decide : networkNumberAndMask _ = ([192, 168, 0, 0], [255, 255, 0, 0])) rfl,
    Contains_of _ ip _ _ _ hx
        (by decide : networkNumberAndMask _ = ([169, 254, 0, 0], [255, 255, 0, 0])) rfl,
    Contains_of _ ip _ _ _ hx
        (by decide : networkNumberAndMask _ =
          ([0, 0, 0, 0, 0, 0, 0, 0, 0, 0, 0, 0, 0, 0, 0, 1],
           [255, 255, 255, 255, 255, 255, 255, 255, 255, 255, 255, 255, 255, 255, 255, 255]))
        rfl,
    Contains_of _ ip _ _ _ hx
        (by decide : networkNumberAndMask _ =
          ([0xfe, 0x80, 0, 0, 0, 0, 0, 0, 0, 0, 0, 0, 0, 0, 0, 0],
           [255, 0xc0, 0, 0, 0, 0, 0, 0, 0, 0, 0, 0, 0, 0, 0, 0])) rfl,
    Contains_of _ ip _ _ _ hx
        (by decide : networkNumberAndMask _ =
          ([0xfc, 0, 0, 0, 0, 0, 0, 0, 0, 0, 0, 0, 0, 0, 0, 0],
           [0xfe, 0, 0, 0, 0, 0, 0, 0, 0, 0, 0, 0, 0, 0, 0, 0])) rfl]
  simp [h4, h16]

theorem zipWith_land_255 (l : List Nat) (h : ∀ b ∈ l, b < 256) :
    List.zipWith (fun a b => a &&& b) l (List.replicate l.length 255) = l := by
  induction l with
  | nil => rfl
  | cons a t ih =>
    have ha := (land_byte a (h a (List.mem_cons_self _ _))).1
    have ht := ih fun b hb => h b (List.mem_cons_of_mem _ hb)
    simp only [List.length_cons, List.replicate_succ, List.zipWith_cons_cons, ha, ht]

theorem zip_fe80 (b0 b1 b2 b3 b4 b5 b6 b7 b8 b9 b10 b11 b12 b13 b14 b15 : Nat) (h0 : b0 < 256) (h1 : b1 < 256) :
    (List.zipWith (fun a b => a &&& b) [0xfe, 0x80, 0, 0, 0, 0, 0, 0, 0, 0, 0, 0, 0, 0, 0, 0]
        [255, 0xc0, 0, 0, 0, 0, 0, 0, 0, 0, 0, 0, 0, 0, 0, 0] =
      List.zipWith (fun a b => a &&& b) [b0, b1, b2, b3, b4, b5, b6, b7, b8, b9, b10, b11, b12, b13, b14, b15]
        [255, 0xc0, 0, 0, 0, 0, 0, 0, 0, 0, 0, 0, 0, 0, 0, 0]) ↔
      (b0 = 0xfe ∧ 0x80 ≤ b1 ∧ b1 ≤ 0xbf) := by
  have l0 := land_byte b0 h0
  have l1 := land_byte b1 h1
  simp only [List.zipWith_cons_cons, List.zipWith_nil_left, Nat.and_zero, List.cons.injEq,
    and_true, l0.1, show (254 &&& 255 : Nat) = 254 from by decide,
    show (128 &&& 192 : Nat) = 128 from by decide]
  rw [← l1.2.2.1]
  constructor
  · rintro ⟨h, h2⟩; exact ⟨h.symm, h2.symm⟩
  · rintro ⟨h, h2⟩; exact ⟨h.symm, h2.symm⟩

theorem zip_fc00 (b0 b1 b2 b3 b4 b5 b6 b7 b8 b9 b10 b11 b12 b13 b14 b15 : Nat) (h0 : b0 < 256) :
    (List.zipWith (fun a b => a &&& b) [0xfc, 0, 0, 0, 0, 0, 0, 0, 0, 0, 0, 0, 0, 0, 0, 0]
        [0xfe, 0, 0, 0, 0, 0, 0, 0, 0, 0, 0, 0, 0, 0, 0, 0] =
      List.zipWith (fun a b => a &&& b) [b0, b1, b2, b3, b4, b5, b6, b7, b8, b9, b10, b11, b12, b13, b14, b15]
        [0xfe, 0, 0, 0, 0, 0, 0, 0, 0, 0, 0, 0, 0, 0, 0, 0]) ↔
      (b0 = 0xfc ∨ b0 = 0xfd) := by
  have l0 := land_byte b0 h0
  simp only [List.zipWith_cons_cons, List.zipWith_nil_left, Nat.and_zero, List.cons.injEq,
    and_true, show (252 &&& 254 : Nat) = 252 from by decide]
  rw [← l0.2.2.2.1]
  exact eq_comm

theorem loop_v6 (ip : List Nat) (b0 b1 b2 b3 b4 b5 b6 b7 b8 b9 b10 b11 b12 b13 b14 b15 : Nat) (hip : ip = [b0, b1, b2, b3, b4, b5, b6, b7, b8, b9, b10, b11, b12, b13, b14, b15])
    (hto4 : IP.To4 ip = none) (hlt : ∀ b ∈ ip, b < 256) :
    IsPrivateIP.loop ip [
      { IP := [127, 0, 0, 0], Mask := [255, 0, 0, 0] },
      { IP := [10, 0, 0, 0], Mask := [255, 0, 0, 0] },
      { IP := [172, 16, 0, 0], Mask := [255, 240, 0, 0] },
      { IP := [192, 168, 0, 0], Mask := [255, 255, 0, 0] },
      { IP := [169, 254, 0, 0], Mask := [255, 255, 0, 0] },
      { IP := [0, 0, 0, 0, 0, 0, 0, 0, 0, 0, 0, 0, 0, 0, 0, 1],
        Mask := [255, 255, 255, 255, 255, 255, 255, 255, 255, 255, 255, 255, 255, 255, 255, 255] },
      { IP := [0xfe, 0x80, 0, 0, 0, 0, 0, 0, 0, 0, 0, 0, 0, 0, 0, 0],
        Mask := [255, 0xc0, 0, 0, 0, 0, 0, 0, 0, 0, 0, 0, 0, 0, 0, 0] },
      { IP := [0xfc, 0, 0, 0, 0, 0, 0, 0, 0, 0, 0, 0, 0, 0, 0, 0],
        Mask := [0xfe, 0, 0, 0, 0, 0, 0, 0, 0, 0, 0, 0, 0, 0, 0, 0] }] =
      some (decide (ip = [0, 0, 0, 0, 0, 0, 0, 0, 0, 0, 0, 0, 0, 0, 0, 1] ∨
        (b0 = 0xfe ∧ 0x80 ≤ b1 ∧ b1 ≤ 0xbf) ∨ b0 = 0xfc ∨ b0 = 0xfd)) := by
  have hx : (match IP.To4 ip with
      | some x => x
      | none => ip) = ip := by rw [hto4]
  have hlen : ip.length = 16 := by rw [hip]; rfl
  have h0 : b0 < 256 := hlt b0 (by rw [hip]; simp)
  have h1 : b1 < 256 := hlt b1 (by rw [hip]; simp)
  have hmask : [255, 255, 255, 255, 255, 255, 255, 255, 255, 255, 255, 255, 255, 255, 255, 255] =
      List.replicate ip.length 255 := by rw [hlen]; rfl
  have e6 : List.zipWith (fun a b => a &&& b) ip
      [255, 255, 255, 255, 255, 255, 255, 255, 255, 255, 255, 255, 255, 255, 255, 255] = ip := by
    rw [hmask]; exact zipWith_land_255 ip hlt
  have e6b : List.zipWith (fun a b => a &&& b) [0, 0, 0, 0, 0, 0, 0, 0, 0, 0, 0, 0, 0, 0, 0, 1]
      [255, 255, 255, 255, 255, 255, 255, 255, 255, 255, 255, 255, 255, 255, 255, 255] =
      [0, 0, 0, 0, 0, 0, 0, 0, 0, 0, 0, 0, 0, 0, 0, 1] := by decide
  have e7 := zip_fe80 b0 b1 b2 b3 b4 b5 b6 b7 b8 b9 b10 b11 b12 b13 b14 b15 h0 h1
  have e8 := zip_fc00 b0 b1 b2 b3 b4 b5 b6 b7 b8 b9 b10 b11 b12 b13 b14 b15 h0
  rw [← hip] at e7 e8
  simp only [IsPrivateIP.loop]
  rw [Contains_of _ ip _ _ _ hx
        (by decide : networkNumberAndMask _ = ([127, 0, 0, 0], [255, 0, 0, 0])) rfl,
    Contains_of _ ip _ _ _ hx
        (by decide : networkNumberAndMask _ = ([10, 0, 0, 0], [255, 0, 0, 0])) rfl,
    Contains_of _ ip _ _ _ hx
        (by decide : networkNumberAndMask _ = ([172, 16, 0, 0], [255, 240, 0, 0])) rfl,
    Contains_of _ ip _ _ _ hx
        (by decide : networkNumberAndMask _ = ([192, 168, 0, 0], [255, 255, 0, 0])) rfl,
    Contains_of _ ip _ _ _ hx
        (by decide : networkNumberAndMask _ = ([169, 254, 0, 0], [255, 255, 0, 0])) rfl,
    Contains_of _ ip _ _ _ hx
        (by decide : networkNumberAndMask _ =
          ([0, 0, 0, 0, 0, 0, 0, 0, 0, 0, 0, 0, 0, 0, 0, 1],
           [255, 255, 255, 255, 255, 255, 255, 255, 255, 255, 255, 255, 255, 255, 255, 255]))
        rfl,
    Contains_of _ ip _ _ _ hx
        (by decide : networkNumberAndMask _ =
          ([0xfe, 0x80, 0, 0, 0, 0, 0, 0, 0, 0, 0, 0, 0, 0, 0, 0],
           [255, 0xc0, 0, 0, 0, 0, 0, 0, 0, 0, 0, 0, 0, 0, 0, 0])) rfl,
    Contains_of _ ip _ _ _ hx
        (by decide : networkNumberAndMask _ =
          ([0xfc, 0, 0, 0, 0, 0, 0, 0, 0, 0, 0, 0, 0, 0, 0, 0],
           [0xfe, 0, 0, 0, 0, 0, 0, 0, 0, 0, 0, 0, 0, 0, 0, 0])) rfl]
  simp only [e6, e6b, e7, e8, hlen, List.length_cons, List.length_nil]
  simp only [show ¬ ((16 : Nat) = 0 + 1 + 1 + 1 + 1) from by decide, false_and, decide_False,
    Option.some_bind, Bool.false_eq_true, if_false,
    show ((16 : Nat) = 0 + 1 + 1 + 1 + 1 + 1 + 1 + 1 + 1 + 1 + 1 + 1 + 1 + 1 + 1 + 1 + 1)
      from by decide, true_and]
  by_cases c1 : [0, 0, 0, 0, 0, 0, 0, 0, 0, 0, 0, 0, 0, 0, 0, 1] = ip
  · simp only [c1, decide_True, if_true, true_or]
  · have c1b : ¬ ip = [0, 0, 0, 0, 0, 0, 0, 0, 0, 0, 0, 0, 0, 0, 0, 1] := fun h => c1 h.symm
    simp only [c1, c1b, decide_False, Bool.false_eq_true, if_false, false_or]
    by_cases c2 : b0 = 0xfe ∧ 0x80 ≤ b1 ∧ b1 ≤ 0xbf
    · simp only [c2, decide_True, if_true, true_or, and_self]
    · simp only [c2, decide_False, Bool.false_eq_true, if_false, false_or]
      by_cases c3 : b0 = 0xfc ∨ b0 = 0xfd
      · simp only [c3, decide_True, if_true]
      · simp only [c3, decide_False, Bool.false_eq_true, if_false]

theorem ip_length_cases (ip : List Nat) :
    (∃ a b c d, ip = [a, b, c, d]) ∨
    (∃ b0 b1 b2 b3 b4 b5 b6 b7 b8 b9 b10 b11 b12 b13 b14 b15, ip = [b0, b1, b2, b3, b4, b5, b6, b7, b8, b9, b10, b11, b12, b13, b14, b15]) ∨
    (ip.length ≠ 4 ∧ ip.length ≠ 16 ∧ ipv4Of ip = none) := by
  rcases ip with _ | ⟨b0, _ | ⟨b1, _ | ⟨b2, _ | ⟨b3, _ | ⟨b4, _ | ⟨b5, _ | ⟨b6, _ | ⟨b7, _ | ⟨b8, _ | ⟨b9, _ | ⟨b10, _ | ⟨b11, _ | ⟨b12, _ | ⟨b13, _ | ⟨b14, _ | ⟨b15, _ | ⟨b16, rest⟩⟩⟩⟩⟩⟩⟩⟩⟩⟩⟩⟩⟩⟩⟩⟩⟩
  all_goals first
    | exact Or.inl ⟨_, _, _, _, rfl⟩
    | exact Or.inr (Or.inl ⟨_, _, _, _, _, _, _, _, _, _, _, _, _, _, _, _, rfl⟩)
    | exact Or.inr (Or.inr ⟨by simp, by simp, rfl⟩)

theorem IsPrivateIP_unfold (ip : List Nat) :
    IsPrivateIP ip =
      (IP.IsLoopback ip).bind fun lo => if lo then some true else
        (IP.IsLinkLocalUnicast ip).bind fun u => if u then some true else
          (IP.IsLinkLocalMulticast ip).bind fun m => if m then some true else
            IsPrivateIP.loop ip [
      { IP := [127, 0, 0, 0], Mask := [255, 0, 0, 0] },
      { IP := [10, 0, 0, 0], Mask := [255, 0, 0, 0] },
      { IP := [172, 16, 0, 0], Mask := [255, 240, 0, 0] },
      { IP := [192, 168, 0, 0], Mask := [255, 255, 0, 0] },
      { IP := [169, 254, 0, 0], Mask := [255, 255, 0, 0] },
      { IP := [0, 0, 0, 0, 0, 0, 0, 0, 0, 0, 0, 0, 0, 0, 0, 1],
        Mask := [255, 255, 255, 255, 255, 255, 255, 255, 255, 255, 255, 255, 255, 255, 255, 255] },
      { IP := [0xfe, 0x80, 0, 0, 0, 0, 0, 0, 0, 0, 0, 0, 0, 0, 0, 0],
        Mask := [255, 0xc0, 0, 0, 0, 0, 0, 0, 0, 0, 0, 0, 0, 0, 0, 0] },
      { IP := [0xfc, 0, 0, 0, 0, 0, 0, 0, 0, 0, 0, 0, 0, 0, 0, 0],
        Mask := [0xfe, 0, 0, 0, 0, 0, 0, 0, 0, 0, 0, 0, 0, 0, 0, 0] }] := by
  obtain ⟨av, hav⟩ := Option.isSome_iff_exists.1 availableIPBlocks_isSome
  unfold IsPrivateIP
  rw [privateIPBlocks_eq, hav]
  rfl

theorem IsPrivateIP_v4 (ip : List Nat) (a b c d : Nat) (hto4 : IP.To4 ip = some [a, b, c, d])
    (hspec : ipv4Of ip = some (a, b, c, d)) (ha : a < 256) (hb : b < 256) :
    IsPrivateIP ip = some (loopbackAddress ip || linkLocalAddress ip || inPrivateBlock ip) := by
  rw [IsPrivateIP_unfold, loop_v4 ip a b c d hto4 ha hb]
  simp only [IP.IsLoopback, IP.IsLinkLocalUnicast, IP.IsLinkLocalMulticast, hto4,
    loopbackAddress, linkLocalAddress, inPrivateBlock, hspec, List.getElem?_cons_zero,
    List.getElem?_cons_succ, Option.map_some', Option.some_bind]
  by_cases h1 : a = 127
  · simp [h1]
  by_cases h2 : a = 169
  · by_cases h3 : b = 254 <;> simp [h2, h3]
  by_cases h4 : a = 224
  · by_cases h5 : b = 0
    · by_cases h6 : c = 0 <;> simp [h4, h5, h6]
    · simp [h4, h5]
  simp [h1, h2, h4]

theorem IsPrivateIP_other (ip : List Nat) (h4 : ip.length ≠ 4) (h16 : ip.length ≠ 16)
    (hspec : ipv4Of ip = none) :
    IsPrivateIP ip = some (loopbackAddress ip || linkLocalAddress ip || inPrivateBlock ip) := by
  have hto4 : IP.To4 ip = none := by simp [IP.To4, h4, h16]
  have hlo : ip ≠ [0, 0, 0, 0, 0, 0, 0, 0, 0, 0, 0, 0, 0, 0, 0, 1] := by
    intro h; rw [h] at h16; exact h16 rfl
  have hll : linkLocalAddress ip = false ∧ inPrivateBlock ip = false := by
    unfold linkLocalAddress inPrivateBlock
    rw [hspec]
    rcases ip with _ | ⟨b0, _ | ⟨b1, rest⟩⟩
    · exact ⟨rfl, rfl⟩
    · exact ⟨rfl, rfl⟩
    · have : rest.length ≠ 14 := by
        intro h; apply h16; simp [h]
      simp [this]
  rw [IsPrivateIP_unfold, loop_other ip hto4 h4 h16]
  simp [IP.IsLoopback, IP.IsLinkLocalUnicast, IP.IsLinkLocalMulticast, hto4, IP.Equal,
    IPv6loopback, h4, h16, loopbackAddress, hspec, hlo, hll.1, hll.2]

theorem IsPrivateIP_v6 (ip : List Nat) (b0 b1 b2 b3 b4 b5 b6 b7 b8 b9 b10 b11 b12 b13 b14 b15 : Nat) (hip : ip = [b0, b1, b2, b3, b4, b5, b6, b7, b8, b9, b10, b11, b12, b13, b14, b15])
    (hto4 : IP.To4 ip = none) (hspec : ipv4Of ip = none) (hlt : ∀ b ∈ ip, b < 256) :
    IsPrivateIP ip = some (loopbackAddress ip || linkLocalAddress ip || inPrivateBlock ip) := by
  have h1 : b1 < 256 := hlt b1 (by rw [hip]; simp)
  have l1 := land_byte b1 h1
  have hlen : ip.length = 16 := by rw [hip]; rfl
  have hi0 : ip[0]? = some b0 := by rw [hip]; rfl
  have hi1 : ip[1]? = some b1 := by rw [hip]; rfl
  have hlo : IP.IsLoopback ip =
      some (decide (ip = [0, 0, 0, 0, 0, 0, 0, 0, 0, 0, 0, 0, 0, 0, 0, 1])) := by
    simp [IP.IsLoopback, hto4, IP.Equal, IPv6loopback, hlen]
  have hu : IP.IsLinkLocalUnicast ip = some (decide (b0 = 0xfe ∧ 0x80 ≤ b1 ∧ b1 ≤ 0xbf)) := by
    simp only [IP.IsLinkLocalUnicast, hto4, hlen, ne_eq, not_true_eq_false, if_false, hi0, hi1,
      Option.some_bind, Option.map_some', l1.2.2.1]
    by_cases c : b0 = 0xfe <;> simp [c]
  have hm : IP.IsLinkLocalMulticast ip = some (decide (b0 = 0xff ∧ b1 % 16 = 2)) := by
    simp only [IP.IsLinkLocalMulticast, hto4, hlen, ne_eq, not_true_eq_false, if_false, hi0,
      hi1, Option.some_bind, Option.map_some', l1.2.2.2.2]
    by_cases c : b0 = 0xff <;> simp [c]
  have hs1 : loopbackAddress ip = decide (ip = [0, 0, 0, 0, 0, 0, 0, 0, 0, 0, 0, 0, 0, 0, 0, 1]) := by
    simp only [loopbackAddress, hspec]
  have hs2 : linkLocalAddress ip =
      decide ((b0 = 0xfe ∧ 0x80 ≤ b1 ∧ b1 ≤ 0xbf) ∨ (b0 = 0xff ∧ b1 % 16 = 2)) := by
    simp only [linkLocalAddress, hspec]
    rw [hip]
    simp
  have hs3 : inPrivateBlock ip =
      decide (ip = [0, 0, 0, 0, 0, 0, 0, 0, 0, 0, 0, 0, 0, 0, 0, 1] ∨
        (b0 = 0xfe ∧ 0x80 ≤ b1 ∧ b1 ≤ 0xbf) ∨ b0 = 0xfc ∨ b0 = 0xfd) := by
    simp only [inPrivateBlock, hspec]
    subst hip
    simp
  rw [IsPrivateIP_unfold, loop_v6 ip b0 b1 b2 b3 b4 b5 b6 b7 b8 b9 b10 b11 b12 b13 b14 b15 hip hto4 hlt, hlo, hu, hm, hs1, hs2, hs3]
  simp only [Option.some_bind]
  by_cases c1 : ip = [0, 0, 0, 0, 0, 0, 0, 0, 0, 0, 0, 0, 0, 0, 0, 1]
  · simp [c1]
  by_cases c2 : b0 = 0xfe ∧ 0x80 ≤ b1 ∧ b1 ≤ 0xbf
  · simp [c1, c2]
  by_cases c3 : b0 = 0xff ∧ b1 % 16 = 2
  · simp [c1, c2, c3]
  simp [c1, c2, c3]

/-! ### C12 -/

/-- C12: `IsPrivateIP` returns, without failing, for every IP byte sequence
(`init` has built the eight blocks without panicking, and no index is out of
range), and it returns true exactly when the address is loopback, link-local, or
in one of the blocks `127.0.0.0/8`, `10.0.0.0/8`, `172.16.0.0/12`, `192.168.0.0/16`,
`169.254.0.0/16`, `::1/128`, `fe80::/10`, `fc00::/7`; a nil or wrong-length value
gives false. -/
theorem IsPrivateIP_spec (ip : IP) (hlt : ∀ b ∈ ip, b < 256) :
    IsPrivateIP ip = some (loopbackAddress ip || linkLocalAddress ip || inPrivateBlock ip) ∧
    (ip.length ≠ 4 → ip.length ≠ 16 → IsPrivateIP ip = some false) := by
  have main : IsPrivateIP ip =
      some (loopbackAddress ip || linkLocalAddress ip || inPrivateBlock ip) := by
    rcases ip_length_cases ip with ⟨a, b, c, d, rfl⟩ | ⟨b0, b1, b2, b3, b4, b5, b6, b7, b8, b9, b10, b11, b12, b13, b14, b15, hip⟩ | ⟨h4, h16, hspec⟩
    · exact IsPrivateIP_v4 _ a b c d (by simp [IP.To4]) rfl (hlt a (by simp)) (hlt b (by simp))
    · by_cases hm : b0 = 0 ∧ b1 = 0 ∧ b2 = 0 ∧ b3 = 0 ∧ b4 = 0 ∧ b5 = 0 ∧ b6 = 0 ∧ b7 = 0 ∧
          b8 = 0 ∧ b9 = 0 ∧ b10 = 0xff ∧ b11 = 0xff
      · obtain ⟨e0, e1, e2, e3, e4, e5, e6, e7, e8, e9, e10, e11⟩ := hm
        subst e0 e1 e2 e3 e4 e5 e6 e7 e8 e9 e10 e11
        subst hip
        exact IsPrivateIP_v4 _ b12 b13 b14 b15 (by simp [IP.To4]) (by simp [ipv4Of])
          (hlt b12 (by simp)) (hlt b13 (by simp))
      · have hto4 : IP.To4 ip = none := by
          rw [hip]
          simp only [IP.To4, List.length_cons, List.length_nil]
          simp
          intro z0 z1 z2 z3 z4 z5 z6 z7 z8 z9 f0
          intro f1
          exact hm ⟨z0, z1, z2, z3, z4, z5, z6, z7, z8, z9, f0, f1⟩
        have hspec : ipv4Of ip = none := by
          rw [hip]
          simp only [ipv4Of, hm, if_false]
        exact IsPrivateIP_v6 ip b0 b1 b2 b3 b4 b5 b6 b7 b8 b9 b10 b11 b12 b13 b14 b15 hip hto4 hspec hlt
    · exact IsPrivateIP_other ip h4 h16 hspec
  refine ⟨main, fun h4 h16 => ?_⟩
  rcases ip_length_cases ip with ⟨a, b, c, d, rfl⟩ | ⟨b0, b1, b2, b3, b4, b5, b6, b7, b8, b9, b10, b11, b12, b13, b14, b15, hip⟩ | ⟨_, _, hspec⟩
  · exact absurd rfl h4
  · rw [hip] at h16; exact absurd rfl h16
  · have hto4 : IP.To4 ip = none := by simp [IP.To4, h4, h16]
    rw [IsPrivateIP_unfold, loop_other ip hto4 h4 h16]
    simp [IP.IsLoopback, IP.IsLinkLocalUnicast, IP.IsLinkLocalMulticast, hto4, IP.Equal,
      IPv6loopback, h4, h16]

/-- C12, at the examples: true for `10.1.2.3`, `172.31.255.255`, `192.168.0.1`,
`127.0.0.1` and `fc00::1`, false for `8.8.8.8`, `172.32.0.0` and `2001:db8::1`, each
as `net.ParseIP` returns it, and false for the nil value and a 3-byte value. -/
theorem IsPrivateIP_spec_witness :
    IsPrivateIP (IPv4 10 1 2 3) = some true ∧
    ParseIP (lit "10.1.2.3") = some (IPv4 10 1 2 3) ∧
    (ParseIP (lit "172.31.255.255")).bind IsPrivateIP = some true ∧
    (ParseIP (lit "192.168.0.1")).bind IsPrivateIP = some true ∧
    (ParseIP (lit "127.0.0.1")).bind IsPrivateIP = some true ∧
    (ParseIP (lit "fc00::1")).bind IsPrivateIP = some true ∧
    (ParseIP (lit "8.8.8.8")).bind IsPrivateIP = some false ∧
    (ParseIP (lit "172.32.0.0")).bind IsPrivateIP = some false ∧
    (ParseIP (lit "2001:db8::1")).bind IsPrivateIP = some false ∧
    IsPrivateIP [] = some false ∧ IsPrivateIP [10, 1, 2] = some false :=
  ⟨((IsPrivateIP_spec (IPv4 10 1 2 3) (by decide)).1).trans (by decide), by decide, by decide,
    by decide, by decide, by decide, by decide, by decide, by decide, by decide, by decide⟩

/-! ### `url.Parse` on `http://` and `https://` URLs -/

theorem parse_with_authority (scheme r : GoString) (u : URL)
    (hgs : ∀ r, getScheme (scheme ++ 0x3A :: r) = some (scheme, r))
    (hlow : ToLower scheme = scheme) (hne : scheme ≠ [])
    (h : url.parse (scheme ++ 0x3A :: 0x2F :: 0x2F :: r) = some u) :
    u.Scheme = scheme ∧ u.Opaque = [] := by
  have hstar : scheme ++ 0x3A :: 0x2F :: 0x2F :: r ≠ [0x2A] := by
    intro h
    have := congrArg List.length h
    simp at this
    omega
  obtain ⟨r2, hrest⟩ : ∃ r2,
      (if ([0x3F].isSuffixOf (0x2F :: 0x2F :: r) && (0x2F :: 0x2F :: r).count 0x3F == 1) = true
        then (0x2F :: 0x2F :: r).dropLast else (cutByte 0x3F (0x2F :: 0x2F :: r)).1) =
        0x2F :: 0x2F :: r2 := by
    split_ifs with hf
    · rcases r with _ | ⟨a, t⟩
      · simp [List.isSuffixOf] at hf
      · exact ⟨(a :: t).dropLast, by simp [List.dropLast]⟩
    · exact ⟨r.takeWhile fun b => b != 0x3F, by simp [cutByte, List.takeWhile]⟩
  unfold url.parse at h
  rw [hgs] at h
  simp only [hstar, hlow, if_false] at h
  simp only [hrest] at h
  have h1 : [0x2F].isPrefixOf (0x2F :: 0x2F :: r2) = true := by simp
  have h2 : [0x2F, 0x2F].isPrefixOf (0x2F :: 0x2F :: r2) = true := by simp
  simp only [h1, h2, hne, ne_eq, not_false_eq_true, and_true, true_or, false_and, if_false,
    if_true, Bool.true_eq_false] at h
  split_ifs at h
  all_goals
    split at h
    · exact absurd h (by simp)
    · simp only [URL.setPath] at h
      cases hu : unescape (List.dropWhile (fun b => b != 47) (List.drop 2 (47 :: 47 :: r2)))
        encoding.encodePath with
      | none =>
        rw [hu] at h
        exact absurd h (by simp)
      | some p =>
        rw [hu] at h
        cases h
        exact ⟨rfl, rfl⟩

theorem getScheme_http (r : GoString) :
    getScheme (lit "http" ++ 0x3A :: r) = some (lit "http", r) := by
  have h : lit "http" = [0x68, 0x74, 0x74, 0x70] := by decide
  rw [h]
  simp [getScheme, getScheme.loop]

theorem getScheme_https (r : GoString) :
    getScheme (lit "https" ++ 0x3A :: r) = some (lit "https", r) := by
  have h : lit "https" = [0x68, 0x74, 0x74, 0x70, 0x73] := by decide
  rw [h]
  simp [getScheme, getScheme.loop]

theorem Parse_with_authority (scheme r : GoString) (u : URL)
    (hgs : ∀ r, getScheme (scheme ++ 0x3A :: r) = some (scheme, r))
    (hlow : ToLower scheme = scheme) (hne : scheme ≠ []) (hs : ∀ b ∈ scheme, b ≠ 0x23)
    (h : url.Parse (scheme ++ 0x3A :: 0x2F :: 0x2F :: r) = some u) :
    u.Scheme = scheme ∧ u.Opaque = [] := by
  have hcut : (cutByte 0x23 (scheme ++ 0x3A :: 0x2F :: 0x2F :: r)).1 =
      scheme ++ 0x3A :: 0x2F :: 0x2F :: r.takeWhile fun b => b != 0x23 := by
    simp only [cutByte]
    rw [List.takeWhile_append_of_pos (by simpa using hs)]
    simp [List.takeWhile]
  unfold url.Parse at h
  rw [hcut] at h
  split at h
  · exact absurd h (by simp)
  · rename_i u0 hu0
    have h0 := parse_with_authority scheme _ u0 hgs hlow hne hu0
    split_ifs at h
    · cases h
      exact h0
    · simp only [URL.setFragment] at h
      cases hf : unescape (cutByte 0x23 (scheme ++ 0x3A :: 0x2F :: 0x2F :: r)).2.1
        encoding.encodeFragment with
      | none =>
        rw [hf] at h
        exact absurd h (by simp)
      | some f =>
        rw [hf] at h
        cases h
        exact h0

theorem Parse_http_prefix (s : GoString) (u : URL)
    (hpre : ((lit "http://").isPrefixOf s || (lit "https://").isPrefixOf s) = true)
    (h : url.Parse s = some u) :
    (u.Scheme = lit "http" ∨ u.Scheme = lit "https") ∧ u.Opaque = [] := by
  rw [Bool.or_eq_true] at hpre
  rcases hpre with hp | hp
  · obtain ⟨r, rfl⟩ := List.isPrefixOf_iff_prefix.mp hp
    have e : lit "http://" ++ r = lit "http" ++ 0x3A :: 0x2F :: 0x2F :: r := by
      have : lit "http://" = lit "http" ++ [0x3A, 0x2F, 0x2F] := by decide
      rw [this]; simp
    rw [e] at h
    have := Parse_with_authority (lit "http") r u getScheme_http (by decide) (by decide)
      (by decide) h
    exact ⟨Or.inl this.1, this.2⟩
  · obtain ⟨r, rfl⟩ := List.isPrefixOf_iff_prefix.mp hp
    have e : lit "https://" ++ r = lit "https" ++ 0x3A :: 0x2F :: 0x2F :: r := by
      have : lit "https://" = lit "https" ++ [0x3A, 0x2F, 0x2F] := by decide
      rw [this]; simp
    rw [e] at h
    have := Parse_with_authority (lit "https") r u getScheme_https (by decide) (by decide)
      (by decide) h
    exact ⟨Or.inr this.1, this.2⟩

/-! ### C13 -/

/-- C13: for every `MinioStorage` whose `HttpPrefix` starts with `http://` or
`https://` and is accepted by `url.Parse` (as the URL `u`), and for every key,
`WebURL(key)` returns a nil error and the string `URL.String` gives for `u` with
its `Path` replaced by `path.Join(u.Path, key)`: the other components of the
prefix are kept.  The scheme of `u` is `http` or `https` and `u` has no opaque
part, so the string is written in the `scheme://host/path` form: when the prefix
has a host and no user, query or fragment, the result is the scheme, `://`, the
host, a `/` if the joined path does not start with one, and the escaped joined
path. -/
theorem WebURL_spec (store : MinioStorage) (key : GoString) (u : URL)
    (hpre : store.hasHttpPrefix store.HttpPrefix = true)
    (hp : url.Parse store.HttpPrefix = some u) :
    store.WebURL key = (URL.String { u with Path := path.Join [u.Path, key] }, none) ∧
    (u.Scheme = lit "http" ∨ u.Scheme = lit "https") ∧ u.Opaque = [] ∧
    (u.Host ≠ [] → u.User = none → u.ForceQuery = false → u.RawQuery = [] →
      u.Fragment = [] →
      (store.WebURL key).1 =
        u.Scheme ++ lit "://" ++ escape u.Host .encodeHost ++
          (if URL.EscapedPath { u with Path := path.Join [u.Path, key] } ≠ [] ∧
              (URL.EscapedPath { u with Path := path.Join [u.Path, key] }).head? ≠ some 0x2F
            then lit "/" else []) ++
          URL.EscapedPath { u with Path := path.Join [u.Path, key] }) := by
  have hw : store.WebURL key =
      (URL.String { u with Path := path.Join [u.Path, key] }, none) := by
    simp [MinioStorage.WebURL, hpre, hp]
  obtain ⟨hs, ho⟩ := Parse_http_prefix store.HttpPrefix u hpre hp
  refine ⟨hw, hs, ho, ?_⟩
  intro hh hu hq hr hf
  have hne : u.Scheme ≠ [] := by
    rcases hs with h | h <;> rw [h] <;> decide
  have h1 : lit "://" = [0x3A, 0x2F, 0x2F] := by decide
  have h2 : lit "/" = [0x2F] := by decide
  rw [hw]
  simp [URL.String, ho, hh, hu, hq, hr, hf, hne, h1, h2]

theorem WebURL_spec_witness :
    MinioStorage.WebURL { HttpPrefix := lit "http://localhost:9000/" } (lit "test.jpg") =
      (lit "http://localhost:9000/test.jpg", none) :=
  ((WebURL_spec { HttpPrefix := lit "http://localhost:9000/" } (lit "test.jpg")
    { Scheme := lit "http", Host := lit "localhost:9000", Path := lit "/" }
    (by decide) (by decide)).1).trans (by decide)

end storage
